import Mathlib

/-!
Shallow embedding of `src/parser.py` (class `Parser`): a single-pass log
parser with three regex-driven line categories (connection-open, query-start,
query-end), IPv4 validation via `ipaddress.IPv4Address`, and running
aggregate statistics.  Lines are modelled as `List Char`; Python `float`
values of the millisecond fields are modelled as exact rationals; `datetime`
values are modelled as seconds since 2000-01-01 00:00:00 (the source format
fixes the century to 2000+YY, and the only operations the source performs on
datetimes are order comparison and subtraction in seconds).  The source's
character classes are modelled at their ASCII core (the log format's numeric
and identifier fields are ASCII).  A Python exception escaping a call is
modelled as `Except.error ()`.
-/

namespace LogsModel

/-- ASCII decimal digit: the `\d` class of the source patterns. -/
def isDigitC (c : Char) : Bool := '0' ≤ c && c ≤ '9'

/-- Lower-case hex digit: the `[0-9a-f]` class of the source patterns. -/
def isHexC (c : Char) : Bool := isDigitC c || ('a' ≤ c && c ≤ 'f')

/-- Word character: the `\w` class of the source patterns (ASCII core). -/
def isWordC (c : Char) : Bool :=
  isDigitC c || ('a' ≤ c && c ≤ 'z') || ('A' ≤ c && c ≤ 'Z') || c = '_'

/-- Whitespace: the `\s` class and the default `str.strip`/`str.split`
separators (ASCII core). -/
def isPySpace (c : Char) : Bool :=
  c = ' ' || c = '\t' || c = '\n' || c = '\r' || c = '\x0b' || c = '\x0c'

/-- Digit-or-dot: the `[\d.]` class of the millisecond fields. -/
def isDigDotC (c : Char) : Bool := isDigitC c || c = '.'

/-- Does `s` start with the literal `pat`? -/
def startsWith : List Char → List Char → Bool
  | [], _ => true
  | _ :: _, [] => false
  | p :: ps, c :: cs => p = c && startsWith ps cs

/-- Substring containment, modelling Python's `pat in line` for a
non-empty `pat`. -/
def containsSub (pat : List Char) : List Char → Bool
  | [] => startsWith pat []
  | c :: t => startsWith pat (c :: t) || containsSub pat t

/-- Consume the literal `pat` from the front of `s`, returning the rest. -/
def lit : List Char → List Char → Option (List Char)
  | [], s => some s
  | _ :: _, [] => none
  | p :: ps, c :: cs => if p = c then lit ps cs else none

/-- Maximal run of characters satisfying `p` (greedy `X*` for a class `X`
followed in the pattern by a character outside the class). -/
def takeRun (p : Char → Bool) : List Char → List Char × List Char
  | [] => ([], [])
  | c :: cs =>
    if p c then
      let r := takeRun p cs
      (c :: r.1, r.2)
    else ([], c :: cs)

/-- Non-empty maximal run: greedy `X+` for a class `X` followed in the
pattern by a character outside the class (so regex backtracking cannot
shorten it). -/
def run1 (p : Char → Bool) (s : List Char) : Option (List Char × List Char) :=
  let r := takeRun p s
  if r.1.isEmpty then none else some r

/-- Exactly two digits: the `\d\x7b2\x7d` pieces of the timestamp pattern. -/
def digits2 : List Char → Option (List Char × List Char)
  | a :: b :: rest => if isDigitC a && isDigitC b then some ([a, b], rest) else none
  | _ => none

/-- Decimal value of a digit string, modelling Python `int` on a `\d+`
match (which never fails). -/
def parseNatL (s : List Char) : ℕ :=
  s.foldl (fun a c => a * 10 + (c.toNat - 48)) 0

/-- Python `float` applied to a `[\d.]+` match: it succeeds exactly when the
token has at most one dot and at least one digit, and the value is exact in
ℚ. -/
def pyFloat (s : List Char) : Option ℚ :=
  if s.count '.' = 0 then
    if s.isEmpty then none else some (parseNatL s : ℚ)
  else if s.count '.' = 1 then
    if (s.takeWhile (fun c => c ≠ '.')).isEmpty &&
        ((s.dropWhile (fun c => c ≠ '.')).drop 1).isEmpty then none
    else
      some ((parseNatL (s.takeWhile (fun c => c ≠ '.')) : ℚ) +
        (parseNatL ((s.dropWhile (fun c => c ≠ '.')).drop 1) : ℚ) /
          ((10 : ℚ) ^ ((s.dropWhile (fun c => c ≠ '.')).drop 1).length))
  else none

/-- Number of whitespace-delimited words, with an in-word flag: models
`len(text.split())`. -/
def countWordsA : Bool → List Char → ℕ
  | _, [] => 0
  | inw, c :: t =>
    if isPySpace c then countWordsA false t
    else (if inw then 0 else 1) + countWordsA true t

/-- Models `len(text.split())`. -/
def countWords (l : List Char) : ℕ := countWordsA false l

/-- Models `str.strip()` (default whitespace, ASCII core). -/
def stripL (l : List Char) : List Char :=
  ((l.dropWhile isPySpace).reverse.dropWhile isPySpace).reverse

/-- Models Python `str.split(sep)` for a single-character separator. -/
def splitOnC (sep : Char) : List Char → List (List Char)
  | [] => [[]]
  | c :: t =>
    if c = sep then [] :: splitOnC sep t
    else
      match splitOnC sep t with
      | [] => [[c]]
      | p :: ps => (c :: p) :: ps

/-! Guard substrings used by `Parser.parse`. -/

/-- Guard substring of the connection-open branch. -/
def gIncoming : List Char := "Incoming Conn\x7b".toList

/-- Guard substring of the query-start branch. -/
def gOnConn : List Char := "On Conn\x7b".toList

/-- Guard substring of the query-end branch. -/
def gEnd : List Char := "End Query\x7b".toList

/-! The three structured matchers `Parser.CONNECTION`, `Parser.NEW_QUERY`,
`Parser.END` and the timestamp pattern `Parser.INTERNAL_TIMESTAMP`.
Each `...Here` function is the deterministic tail of the regex tried at one
position; each `...Search` function is `re.search`'s leftmost scan
(the `.*?` prefix together with `search` tries start positions left to
right).  Every greedy `+` group in the source patterns is followed by a
literal character outside its class, so the maximal-run reading is exactly
the backtracking semantics. -/

/-- Named groups of a `Parser.CONNECTION` match. -/
structure ConnMatch where
  conn_hex_id : List Char
  raw_ip_port : List Char
  open_connections : List Char
  limit : List Char
  deriving DecidableEq, Repr

/-- Tail of `Parser.CONNECTION` after its leading literal. -/
def connTail (s1 : List Char) : Option ConnMatch := do
  let (hexid, s2) ← run1 isHexC s1
  let s3 ← lit "\x7d on ".toList s2
  let (tok, s4) ← run1 (fun c => !(isPySpace c)) s3
  let s5 ← lit " accepted, ".toList s4
  let (oc, s6) ← run1 isDigitC s5
  let s7 ← lit " of ".toList s6
  let (lim, _) ← run1 isDigitC s7
  pure ⟨hexid, tok, oc, lim⟩

/-- Try `Parser.CONNECTION` at the current position. -/
def connHere (s : List Char) : Option ConnMatch :=
  match lit gIncoming s with
  | none => none
  | some s1 => connTail s1

/-- Models `Parser.CONNECTION.search(line)`. -/
def connSearch : List Char → Option ConnMatch
  | [] => none
  | c :: t =>
    match connHere (c :: t) with
    | some g => some g
    | none => connSearch t

/-- Named groups of a `Parser.NEW_QUERY` match. -/
structure NewQueryMatch where
  conn_hex_id : List Char
  query_hex_id : List Char
  query_id : List Char
  text_decoded : List Char
  deriving DecidableEq, Repr

/-- Tail of `Parser.NEW_QUERY` after its leading literal.  The text group
is `.+`: at least one character, greedy to the end of the line. -/
def nqTail (s1 : List Char) : Option NewQueryMatch :=
  match run1 isHexC s1 with
  | none => none
  | some (chex, s2) =>
    match lit "\x7d new Query\x7b".toList s2 with
    | none => none
    | some s3 =>
      match run1 isHexC s3 with
      | none => none
      | some (qhex, s4) =>
        match lit "\x7d [".toList s4 with
        | none => none
        | some s5 =>
          match run1 isDigitC s5 with
          | none => none
          | some (qid, s6) =>
            match lit "]: ".toList s6 with
            | none => none
            | some s7 =>
              if s7.isEmpty then none else some ⟨chex, qhex, qid, s7⟩

/-- Try `Parser.NEW_QUERY` at the current position. -/
def nqHere (s : List Char) : Option NewQueryMatch :=
  match lit gOnConn s with
  | none => none
  | some s1 => nqTail s1

/-- Models `Parser.NEW_QUERY.search(line)`. -/
def nqSearch : List Char → Option NewQueryMatch
  | [] => none
  | c :: t =>
    match nqHere (c :: t) with
    | some g => some g
    | none => nqSearch t

/-- Named groups of a `Parser.END` match. -/
structure EndMatch where
  query_hex_id : List Char
  query_id : List Char
  status : List Char
  time_total_ms : List Char
  time_in_queue_ms : List Char
  time_working_ms : List Char
  response_size_bytes : List Char
  deriving DecidableEq, Repr

/-- Tail of `Parser.END` after its leading literal. -/
def endTail (s1 : List Char) : Option EndMatch := do
  let (qhex, s2) ← run1 isHexC s1
  let s3 ← lit "\x7d [".toList s2
  let (qid, s4) ← run1 isDigitC s3
  let s5 ← lit "], ".toList s4
  let (st, s6) ← run1 isWordC s5
  let s7 ← lit ",".toList s6
  match s7 with
  | [] => none
  | w :: s8 =>
    if isPySpace w then do
      let s9 ← lit "spent \x7b ".toList s8
      let (tt, s10) ← run1 isDigDotC s9
      let s11 ← lit " : ".toList s10
      let (tq, s12) ← run1 isDigDotC s11
      let s13 ← lit " queue, ".toList s12
      let (tw, s14) ← run1 isDigDotC s13
      let s15 ← lit " work \x7d ms, ".toList s14
      let (bs, s16) ← run1 isDigitC s15
      let _ ← lit " bytes".toList s16
      pure ⟨qhex, qid, st, tt, tq, tw, bs⟩
    else none

/-- Try `Parser.END` at the current position. -/
def endHere (s : List Char) : Option EndMatch :=
  match lit gEnd s with
  | none => none
  | some s1 => endTail s1

/-- Models `Parser.END.search(line)`. -/
def endSearch : List Char → Option EndMatch
  | [] => none
  | c :: t =>
    match endHere (c :: t) with
    | some g => some g
    | none => endSearch t

/-- Groups of a `Parser.INTERNAL_TIMESTAMP` match: two digits each for
day, month, year, hour, minute, second (the pattern's fixed-width pieces
admit no backtracking). -/
structure TsMatch where
  dd : List Char
  mm : List Char
  yy : List Char
  hh : List Char
  mi : List Char
  ss : List Char
  deriving DecidableEq, Repr

/-- Try `Parser.INTERNAL_TIMESTAMP` at the current position. -/
def tsHere (s : List Char) : Option TsMatch := do
  let s1 ← lit "[".toList s
  let (dd, s2) ← digits2 s1
  let s3 ← lit ".".toList s2
  let (mm, s4) ← digits2 s3
  let s5 ← lit ".".toList s4
  let (yy, s6) ← digits2 s5
  let s7 ← lit " ".toList s6
  let (hh, s8) ← digits2 s7
  let s9 ← lit ":".toList s8
  let (mi, s10) ← digits2 s9
  let s11 ← lit ":".toList s10
  let (ss, s12) ← digits2 s11
  let _ ← lit "]".toList s12
  pure ⟨dd, mm, yy, hh, mi, ss⟩

/-- Models `Parser.INTERNAL_TIMESTAMP.search(line)`. -/
def tsSearch : List Char → Option TsMatch
  | [] => none
  | c :: t =>
    match tsHere (c :: t) with
    | some g => some g
    | none => tsSearch t

/-! Gregorian calendar arithmetic for `datetime.strptime` on
`20YY-MM-DD HH:MM:SS` and for datetime comparison/subtraction. -/

/-- Gregorian leap-year rule, as used by Python's `datetime`. -/
def gregLeap (y : ℕ) : Bool := (y % 4 = 0 && y % 100 ≠ 0) || y % 400 = 0

/-- Days in a month of a given year. -/
def monthDays (y m : ℕ) : ℕ :=
  if m = 2 then (if gregLeap y then 29 else 28)
  else if m = 4 ∨ m = 6 ∨ m = 9 ∨ m = 11 then 30
  else 31

/-- Days in the months of year `y` strictly before month `m`. -/
def daysBeforeMonth (y m : ℕ) : ℕ :=
  (List.range (m - 1)).foldl (fun a i => a + monthDays y (i + 1)) 0

/-- Days in the years from 2000 up to (excluding) year `y`. -/
def daysSince2000 (y : ℕ) : ℕ :=
  (List.range (y - 2000)).foldl
    (fun a i => a + (if gregLeap (2000 + i) then 366 else 365)) 0

/-- Seconds since 2000-01-01 00:00:00 of a valid datetime.  For the
datetimes the source builds (years 2000..2099) this linearization is the
order-isomorphic image of Python's field-lexicographic `datetime` order,
and differences of these values are `timedelta.total_seconds()`. -/
def toEpochSecs (y m d h mi s : ℕ) : ℕ :=
  ((daysSince2000 y + daysBeforeMonth y m + (d - 1)) * 24 + h) * 3600 + mi * 60 + s

/-- Validity of the field values, as enforced by `datetime.strptime` with
format `%Y-%m-%d %H:%M:%S` followed by the `datetime` constructor: an
out-of-range month/day/hour/minute/second raises `ValueError`. -/
def validDT (y m d h mi s : ℕ) : Bool :=
  decide (1 ≤ m) && decide (m ≤ 12) && decide (1 ≤ d) && decide (d ≤ monthDays y m) &&
  decide (h ≤ 23) && decide (mi ≤ 59) && decide (s ≤ 59)

/-- Models `Parser._extract_internal_timestamp`: `Except.ok none` when the
pattern is absent (Python returns `None`), `Except.ok (some t)` on a valid
timestamp, and `Except.error ()` when the pattern matches but `strptime`
raises `ValueError` (the source does not catch it). -/
def extractInternalTimestamp (line : List Char) : Except Unit (Option ℕ) :=
  match tsSearch line with
  | none => .ok none
  | some g =>
    let y := 2000 + parseNatL g.yy
    let m := parseNatL g.mm
    let d := parseNatL g.dd
    let h := parseNatL g.hh
    let mi := parseNatL g.mi
    let s := parseNatL g.ss
    if validDT y m d h mi s then .ok (some (toEpochSecs y m d h mi s)) else .error ()

/-! IPv4 validation: `Parser._is_valid_ipv4` defers to
`ipaddress.IPv4Address`, whose string parser splits on dots and accepts each
octet iff it is 1-3 ASCII digits, has no leading zero unless it is exactly
`0`, and denotes a value at most 255. -/

/-- One octet as accepted by `ipaddress.IPv4Address._parse_octet`. -/
def validOctet (p : List Char) : Bool :=
  !p.isEmpty && p.all isDigitC && decide (p.length ≤ 3) &&
  (decide (p.length = 1) || decide (p.headD 'x' ≠ '0')) &&
  decide (parseNatL p ≤ 255)

/-- Models `Parser._is_valid_ipv4` (i.e. `ipaddress.IPv4Address` accepting
the string). -/
def isValidIPv4 (t : List Char) : Bool :=
  let parts := splitOnC '.' t
  decide (parts.length = 4) && parts.all validOctet

/-- Models `Parser._extract_ip`: split once on the first colon when one is
present and validate only the part before it; otherwise validate the whole
token. -/
def extractIp (raw : List Char) : Option (List Char) :=
  if raw.contains ':' then
    let ip := raw.takeWhile (fun c => c ≠ ':')
    if isValidIPv4 ip then some ip else none
  else
    if isValidIPv4 raw then some raw else none

/-! Parser state: the mutable attributes set up in `Parser.__init__`.
Python sets are modelled as duplicate-free lists grown by `setAdd`; dicts as
association lists with last-write-wins `dictSet`. -/

/-- Add to a set: no-op when already present (Python `set.add`). -/
def setAdd {α : Type} [DecidableEq α] (s : List α) (a : α) : List α :=
  if a ∈ s then s else s ++ [a]

/-- Store under a key, overwriting an existing binding (Python `dict` item
assignment). -/
def dictSet {α β : Type} [DecidableEq α] : List (α × β) → α → β → List (α × β)
  | [], k, v => [(k, v)]
  | (k0, v0) :: rest, k, v =>
    if k0 = k then (k0, v) :: rest else (k0, v0) :: dictSet rest k v

/-- Lookup (Python `dict.get`). -/
def dictGet {α β : Type} [DecidableEq α] : List (α × β) → α → Option β
  | [], _ => none
  | (k0, v0) :: rest, k => if k0 = k then some v0 else dictGet rest k

/-- Lookup with default (Python `dict.get(k, d)`). -/
def dictGetD {α β : Type} [DecidableEq α] (l : List (α × β)) (k : α) (d : β) : β :=
  (dictGet l k).getD d

/-- The attributes of a `Parser` instance (minus the file path, which only
feeds the out-of-scope I/O layer). -/
structure ParserState where
  connections : List (List Char × List Char)
  query_to_ip : List (ℕ × List Char)
  request_freq : List (List Char × ℕ)
  total_words : ℕ
  all_ips : List (List Char)
  invalid_ips : List (List Char)
  first_end_time : Option ℕ
  last_end_time : Option ℕ
  total_time_working_ms : ℚ
  total_time_with_waiting_ms : ℚ
  max_handling_time_working_ms : ℚ
  max_handling_time_with_waiting_ms : ℚ
  new_query_ids : List ℕ
  finished_query_ids : List ℕ
  deriving DecidableEq, Repr

/-- The state `Parser.__init__` builds. -/
def initState : ParserState where
  connections := []
  query_to_ip := []
  request_freq := []
  total_words := 0
  all_ips := []
  invalid_ips := []
  first_end_time := none
  last_end_time := none
  total_time_working_ms := 0
  total_time_with_waiting_ms := 0
  max_handling_time_working_ms := 0
  max_handling_time_with_waiting_ms := 0
  new_query_ids := []
  finished_query_ids := []

/-- State change of `Parser._parse_connection` once the structured match
has produced groups `g`. -/
def applyConnection (s : ParserState) (g : ConnMatch) : ParserState :=
  match extractIp g.raw_ip_port with
  | some ip =>
    { s with
      all_ips := setAdd s.all_ips ip
      connections := dictSet s.connections g.conn_hex_id ip }
  | none =>
    { s with
      invalid_ips := setAdd s.invalid_ips g.raw_ip_port
      connections := dictSet s.connections g.conn_hex_id g.raw_ip_port }

/-- Models `Parser._parse_connection`: `none` when the structured match
fails (the method returns `False` with no state change), otherwise the
updated state. -/
def parseConnection (s : ParserState) (line : List Char) : Option ParserState :=
  match connSearch line with
  | none => none
  | some g => some (applyConnection s g)

/-- State change of `Parser._parse_new_query` once the structured match has
produced groups `g`: a duplicate query id returns the state unchanged (the
method returns `True` before any mutation). -/
def applyNewQuery (s : ParserState) (g : NewQueryMatch) : ParserState :=
  let qid := parseNatL g.query_id
  if qid ∈ s.new_query_ids then s
  else
    let s1 := { s with new_query_ids := setAdd s.new_query_ids qid }
    let text := stripL g.text_decoded
    let s2 :=
      match dictGet s1.connections g.conn_hex_id with
      | some ip =>
        if ip.isEmpty then s1
        else { s1 with query_to_ip := dictSet s1.query_to_ip qid ip }
      | none => s1
    if text.isEmpty then s2
    else
      { s2 with
        request_freq := dictSet s2.request_freq text (dictGetD s2.request_freq text 0 + 1)
        total_words := s2.total_words + countWords text }

/-- Models `Parser._parse_new_query`: `none` when the structured match
fails, otherwise the (possibly unchanged) updated state. -/
def parseNewQuery (s : ParserState) (line : List Char) : Option ParserState :=
  match nqSearch line with
  | none => none
  | some g => some (applyNewQuery s g)

/-- Update of `first_end_time`: `if first is None or ts < first`. -/
def updFirst (o : Option ℕ) (t : ℕ) : Option ℕ :=
  match o with
  | none => some t
  | some f => if t < f then some t else some f

/-- Update of `last_end_time`: `if last is None or ts > last`. -/
def updLast (o : Option ℕ) (t : ℕ) : Option ℕ :=
  match o with
  | none => some t
  | some l => if t > l then some t else some l

/-- State change of `Parser._parse_end_query` once the structured match has
produced groups `g`: `Except.error ()` when `float` or `strptime` raises.
Faithful to the source order: the duplicate check precedes the `float`
calls, and the id is added to `finished_query_ids` before them.  The
source's `+=` adds IEEE binary64 floats; the sums here are the exact
rational values, so this model idealizes away the rounding of each
addition (the rounding itself is modelled by `rounds64`). -/
def applyEndQuery (s : ParserState) (g : EndMatch) (line : List Char) : Except Unit ParserState :=
  let qid := parseNatL g.query_id
  if qid ∈ s.finished_query_ids then .ok s
  else
    let s1 := { s with finished_query_ids := setAdd s.finished_query_ids qid }
    match pyFloat g.time_total_ms with
    | none => .error ()
    | some tt =>
      match pyFloat g.time_working_ms with
      | none => .error ()
      | some tw =>
        let s2 := { s1 with
          total_time_with_waiting_ms := s1.total_time_with_waiting_ms + tt
          total_time_working_ms := s1.total_time_working_ms + tw
          max_handling_time_with_waiting_ms :=
            if tt > s1.max_handling_time_with_waiting_ms then tt
            else s1.max_handling_time_with_waiting_ms
          max_handling_time_working_ms :=
            if tw > s1.max_handling_time_working_ms then tw
            else s1.max_handling_time_working_ms }
        match extractInternalTimestamp line with
        | .error _ => .error ()
        | .ok none => .ok s2
        | .ok (some t) =>
          .ok { s2 with
            first_end_time := updFirst s2.first_end_time t
            last_end_time := updLast s2.last_end_time t }

/-- Models `Parser._parse_end_query`: `Except.ok none` when the structured
match fails (returns `False`), `Except.ok (some s1)` when it returns `True`
leaving state `s1`, and `Except.error ()` when `float` or `strptime`
raises. -/
def parseEndQuery (s : ParserState) (line : List Char) : Except Unit (Option ParserState) :=
  match endSearch line with
  | none => .ok none
  | some g =>
    match applyEndQuery s g line with
    | .error e => .error e
    | .ok s1 => .ok (some s1)

/-- Third dispatch stage of `Parser.parse`: the `End Query\x7b` guard and
branch (reached when the two earlier branches did not consume the line). -/
def processAfterNQ (s : ParserState) (line : List Char) : Except Unit ParserState :=
  if containsSub gEnd line then
    match parseEndQuery s line with
    | .error e => .error e
    | .ok none => .ok s
    | .ok (some s1) => .ok s1
  else .ok s

/-- Second dispatch stage of `Parser.parse`: the `On Conn\x7b` guard and
branch. -/
def processAfterConn (s : ParserState) (line : List Char) : Except Unit ParserState :=
  if containsSub gOnConn line then
    match parseNewQuery s line with
    | some s1 => .ok s1
    | none => processAfterNQ s line
  else processAfterNQ s line

/-- One iteration of the loop body of `Parser.parse` on an (already
newline-stripped) line. -/
def processLine (s : ParserState) (line : List Char) : Except Unit ParserState :=
  if containsSub gIncoming line then
    match parseConnection s line with
    | some s1 => .ok s1
    | none => processAfterConn s line
  else processAfterConn s line

/-- Models `Parser.parse` on the file's list of lines: the fold of
`processLine`, aborting at the first uncaught exception. -/
def parseLines : ParserState → List (List Char) → Except Unit ParserState
  | s, [] => .ok s
  | s, l :: ls =>
    match processLine s l with
    | .error e => .error e
    | .ok s1 => parseLines s1 ls

/-! Derived metrics, as pure functions of the state. -/

/-- Models `Parser.average_words`. -/
def average_words (s : ParserState) : ℚ :=
  let n := s.new_query_ids.length
  if n = 0 then 0 else (s.total_words : ℚ) / (n : ℚ)

/-- Models `Parser.average_times`.  The source divides IEEE binary64
floats; the division here is exact rational division, so this model
idealizes away the final rounding (modelled by `rounds64`). -/
def average_times (s : ParserState) : ℚ × ℚ :=
  let c := s.finished_query_ids.length
  if c = 0 then (0, 0)
  else (s.total_time_working_ms / (c : ℚ), s.total_time_with_waiting_ms / (c : ℚ))

/-- Models `Parser.max_times`. -/
def max_times (s : ParserState) : ℚ × ℚ :=
  (s.max_handling_time_working_ms, s.max_handling_time_with_waiting_ms)

/-- Models `Parser.rps`.  A `datetime` is always truthy in Python, so the
`not self.first_end_time` tests are exactly the `None` tests; the span in
seconds of the `timedelta` is the difference of the linearized values. -/
def rps (s : ParserState) : ℚ :=
  let c := s.finished_query_ids.length
  if c = 0 then 0
  else
    match s.first_end_time, s.last_end_time with
    | some f, some l =>
      let span : ℚ := (l : ℚ) - (f : ℚ)
      if span ≤ 0 then (c : ℚ) else (c : ℚ) / span
    | _, _ => 0

instance {α : Type} [DecidableEq α] : DecidableEq (Except Unit α) := fun a b =>
  match a, b with
  | .error e, .error f => .isTrue (by rw [Unit.ext e f])
  | .ok x, .ok y => if h : x = y then .isTrue (by rw [h]) else .isFalse (by simp [h])
  | .error _, .ok _ => .isFalse (by simp)
  | .ok _, .error _ => .isFalse (by simp)

/-- Exactly when processing a line raises an uncaught exception: the line
is not consumed by the first two branches, the query-end structured match
succeeds on a first-seen query id, and a millisecond field fails `float`
parsing or the bracketed timestamp matches but is an invalid
date/time. -/
def lineRaises (s : ParserState) (line : List Char) : Bool :=
  (connSearch line).isNone && (nqSearch line).isNone &&
  (match endSearch line with
   | none => false
   | some g =>
     decide (parseNatL g.query_id ∉ s.finished_query_ids) &&
     ((pyFloat g.time_total_ms).isNone || (pyFloat g.time_working_ms).isNone ||
      (match extractInternalTimestamp line with
       | .error _ => true
       | .ok _ => false)))

/-- Validation rule exactly as claim C3 words it: exactly four
dot-separated decimal groups, each an integer in [0,255], no extra
characters. -/
def claimValidIPv4 (t : List Char) : Bool :=
  decide ((splitOnC '.' t).length = 4) &&
  (splitOnC '.' t).all (fun p => !p.isEmpty && p.all isDigitC && decide (parseNatL p ≤ 255))

/-- One group of the amended claim C3 rule: a non-empty string of ASCII
digits with no leading zero unless the group is exactly `0`, denoting an
integer in [0,255].  (Unlike `validOctet` this does not bound the number
of digits; the bound is implied.) -/
def specOctet (p : List Char) : Bool :=
  !p.isEmpty && p.all isDigitC &&
  (decide (p.length = 1) || decide (p.headD 'x' ≠ '0')) &&
  decide (parseNatL p ≤ 255)

/-- Validation rule of the amended claim C3: exactly four dot-separated
decimal groups, each with no leading zero unless the group is exactly `0`,
each denoting an integer in [0,255], no extra characters. -/
def specValidIPv4 (t : List Char) : Bool :=
  decide ((splitOnC '.' t).length = 4) && (splitOnC '.' t).all specOctet

/-- The state update a first-seen query-end line with float values `tt`,
`tw` and timestamp-extraction result `tso` performs. -/
def endUpd (s : ParserState) (qid : ℕ) (tt tw : ℚ) (tso : Option ℕ) : ParserState :=
  { s with
    finished_query_ids := setAdd s.finished_query_ids qid
    total_time_with_waiting_ms := s.total_time_with_waiting_ms + tt
    total_time_working_ms := s.total_time_working_ms + tw
    max_handling_time_with_waiting_ms := max s.max_handling_time_with_waiting_ms tt
    max_handling_time_working_ms := max s.max_handling_time_working_ms tw
    first_end_time := tso.elim s.first_end_time (updFirst s.first_end_time)
    last_end_time := tso.elim s.last_end_time (updLast s.last_end_time) }

/-- The timestamp captured by one line, when that line reaches the
query-end branch with a first-seen id and a valid bracketed timestamp. -/
def stepCaptured (s : ParserState) (line : List Char) : Option ℕ :=
  if (connSearch line).isSome || (nqSearch line).isSome then none
  else
    match endSearch line with
    | none => none
    | some g =>
      if parseNatL g.query_id ∈ s.finished_query_ids then none
      else
        match extractInternalTimestamp line with
        | .ok (some t) => some t
        | _ => none

/-- All timestamps captured from first-seen query-end lines along a run. -/
def capturedTs : ParserState → List (List Char) → List ℕ
  | _, [] => []
  | s, l :: ls =>
    match processLine s l with
    | .error _ => []
    | .ok s1 => (stepCaptured s l).toList ++ capturedTs s1 ls

/-- Fold of the first-timestamp update over a list of timestamps. -/
def foldFirstO (o : Option ℕ) (ts : List ℕ) : Option ℕ := ts.foldl updFirst o

/-- Fold of the last-timestamp update over a list of timestamps. -/
def foldLastO (o : Option ℕ) (ts : List ℕ) : Option ℕ := ts.foldl updLast o

/-- Inductive invariant behind claim C10: sums and maxima are non-negative
and each sum is bounded by the finished count times the matching
maximum. -/
def InvQ (s : ParserState) : Prop :=
  0 ≤ s.total_time_working_ms ∧ 0 ≤ s.total_time_with_waiting_ms ∧
  0 ≤ s.max_handling_time_working_ms ∧ 0 ≤ s.max_handling_time_with_waiting_ms ∧
  s.total_time_working_ms ≤
    (s.finished_query_ids.length : ℚ) * s.max_handling_time_working_ms ∧
  s.total_time_with_waiting_ms ≤
    (s.finished_query_ids.length : ℚ) * s.max_handling_time_with_waiting_ms

/-! Concrete lines and states used by the counterexamples and witnesses. -/

/-- A line on which the connection guard is present but `CONNECTION` fails,
while `NEW_QUERY` matches. -/
def cexLineC1 : List Char :=
  "On Conn\x7bab\x7d new Query\x7bcd\x7d [5]: Incoming Conn\x7bx".toList

/-- The state the parser actually reaches on `cexLineC1`. -/
def cexStateC1 : ParserState :=
  { initState with
    new_query_ids := [5]
    request_freq := [("Incoming Conn\x7bx".toList, 1)]
    total_words := 2 }

/-- A line on which all three guards are present and all three structured
matches fail. -/
def wLineC1 : List Char :=
  "Incoming Conn\x7b On Conn\x7b End Query\x7b nothing".toList

/-- A query-end line whose total-ms field matches `[\d.]+` but is not a
valid float. -/
def cexLineC2 : List Char :=
  "End Query\x7ba\x7d [7], ok, spent \x7b 1.2.3 : 4 queue, 5 work \x7d ms, 6 bytes".toList

/-- A line with no guard substring at all. -/
def wLineC2 : List Char := "hello world".toList

/-- A connection-open line whose address token has a leading-zero group. -/
def cexLineC3 : List Char :=
  "Incoming Conn\x7bee\x7d on 01.2.3.4:80 accepted, 1 of 2".toList

/-- A connection-open line with a valid address and port. -/
def wLineC3 : List Char :=
  "Incoming Conn\x7bf1\x7d on 10.0.0.1:85 accepted, 1 of 5".toList

/-- The groups `CONNECTION` extracts from `wLineC3`. -/
def wConnC3 : ConnMatch :=
  ⟨"f1".toList, "10.0.0.1:85".toList, "1".toList, "5".toList⟩

/-- A well-formed query-start line. -/
def wLineC4 : List Char :=
  "On Conn\x7bab\x7d new Query\x7bcd\x7d [3]: hello world".toList

/-- The groups `NEW_QUERY` extracts from `wLineC4`. -/
def wNqC4 : NewQueryMatch :=
  ⟨"ab".toList, "cd".toList, "3".toList, "hello world".toList⟩

/-- A well-formed query-end line with a bracketed timestamp. -/
def wLineC5 : List Char :=
  ("[14.01.23 10:00:05] End Query\x7bab\x7d [375], SUCCESS, " ++
    "spent \x7b 30.5 : 10.25 queue, 20.25 work \x7d ms, 543 bytes").toList

/-- The groups `END` extracts from `wLineC5`. -/
def wEndC5 : EndMatch :=
  ⟨"ab".toList, "375".toList, "SUCCESS".toList, "30.5".toList, "10.25".toList,
    "20.25".toList, "543".toList⟩

/-- The linearized value of the timestamp `[14.01.23 10:00:05]`. -/
def wTsC5 : ℕ := toEpochSecs 2023 1 14 10 0 5

/-- The rational value of the total-ms field of `wLineC5`. -/
def wTtC5 : ℚ := (pyFloat wEndC5.time_total_ms).getD 0

/-- The rational value of the working-ms field of `wLineC5`. -/
def wTwC5 : ℚ := (pyFloat wEndC5.time_working_ms).getD 0

/-- A state with one finished query and a single captured timestamp. -/
def wStateC6a : ParserState :=
  { initState with
    finished_query_ids := [1]
    first_end_time := some 100
    last_end_time := some 100 }

/-- A state with five finished queries over a ten-second span. -/
def wStateC6b : ParserState :=
  { initState with
    finished_query_ids := [1, 2, 3, 4, 5]
    first_end_time := some 100
    last_end_time := some 110 }

/-- A state with two started queries and five words in total. -/
def wStateC7 : ParserState :=
  { initState with new_query_ids := [1, 2], total_words := 5 }

/-- A query-start-shaped line with zero characters of request text. -/
def cexLineC8 : List Char :=
  "On Conn\x7bab\x7d new Query\x7bcd\x7d [9]: ".toList

/-- A query-start line whose request text is whitespace only. -/
def wLineC8 : List Char :=
  "On Conn\x7baa\x7d new Query\x7bbb\x7d [4]:    ".toList

/-- The groups `NEW_QUERY` extracts from `wLineC8`. -/
def wNqC8 : NewQueryMatch :=
  ⟨"aa".toList, "bb".toList, "4".toList, "   ".toList⟩

/-- A one-line input for the timestamp-bounds witness. -/
def wLinesC9 : List (List Char) :=
  [("[14.01.23 10:00:05] End Query\x7bab\x7d [375], SUCCESS, " ++
    "spent \x7b 30.5 : 10.25 queue, 20.25 work \x7d ms, 543 bytes").toList]

/-- The state after parsing `wLinesC9`. -/
def wStateC9 : ParserState :=
  match parseLines initState wLinesC9 with
  | .ok s => s
  | .error _ => initState

/-- The timestamp captured from `wLinesC9`. -/
def wTsC9 : ℕ := toEpochSecs 2023 1 14 10 0 5

/-- A one-line input for the max-versus-average witness. -/
def wLinesC10 : List (List Char) :=
  [("End Query\x7bcc\x7d [9], SUCCESS, " ++
    "spent \x7b 30.5 : 10.25 queue, 20.25 work \x7d ms, 543 bytes").toList]

/-- The state after parsing `wLinesC10`. -/
def wStateC10 : ParserState :=
  match parseLines initState wLinesC10 with
  | .ok s => s
  | .error _ => initState

/-! IEEE binary64 rounding.  The source stores the millisecond fields in
Python floats (IEEE binary64) and accumulates them with `+=` and divides
them with `/`, each operation correctly rounded to nearest with ties to
even; `float("...")` on a decimal literal is also correctly rounded.  The
`ParserState` model above instead carries the exact rational values, so a
property that depends on rounding must be checked against the relation
below. -/

/-- The value `x` is the IEEE binary64 round-to-nearest, ties-to-even
result of the exact value `q`, for `q` in the positive normal range: for
the binade exponent `e` placing `q` between `2 ^ (e + 52)` and
`2 ^ (e + 53)`, the result lies on the grid `m * 2 ^ e` with a 53-bit
mantissa, within half a unit in the last place of `q`, and at an exact
half-ulp distance only when the mantissa is even. -/
def rounds64 (q x : ℚ) : Prop :=
  ∃ m e : ℤ, x = (m : ℚ) * (2 : ℚ) ^ e ∧ 2 ^ 52 ≤ m ∧ m ≤ 2 ^ 53 ∧
    (2 : ℚ) ^ (e + 52) ≤ q ∧ q ≤ (2 : ℚ) ^ (e + 53) ∧
    |q - x| ≤ (2 : ℚ) ^ e / 2 ∧
    (|q - x| = (2 : ℚ) ^ e / 2 → m % 2 = 0)

/-- The binary64 value of the decimal literal `0.1`: what Python's float
parsing of the field `0.1` yields. -/
def fl01 : ℚ := 7205759403792794 / 2 ^ 56

/-- The binary64 sum `fl01 + fl01` (exact, since doubling only raises the
exponent). -/
def fl02 : ℚ := 7205759403792794 / 2 ^ 55

/-- The binary64 result of `fl02 + fl01`: the exact sum `3 * fl01` sits
exactly half an ulp between two doubles and the tie resolves to the even
mantissa, giving `0.30000000000000004`. -/
def fl03 : ℚ := 5404319552844596 / 2 ^ 54

/-- The binary64 quotient `fl03 / 3`: `0.10000000000000002`, one ulp above
`fl01`. -/
def flAvg : ℚ := 7205759403792795 / 2 ^ 56

/-- The running-maximum fold the source performs on the stored values (the
comparison update involves no rounding). -/
def maxFoldQ (xs : List ℚ) : ℚ :=
  xs.foldl (fun m x => if x > m then x else m) 0

/-- Three query-end lines whose total and working times are all the
literal `0.1` ms. -/
def cexLinesC10 : List (List Char) :=
  ["End Query\x7ba1\x7d [1], ok, spent \x7b 0.1 : 0.0 queue, 0.1 work \x7d ms, 5 bytes".toList,
   "End Query\x7ba2\x7d [2], ok, spent \x7b 0.1 : 0.0 queue, 0.1 work \x7d ms, 5 bytes".toList,
   "End Query\x7ba3\x7d [3], ok, spent \x7b 0.1 : 0.0 queue, 0.1 work \x7d ms, 5 bytes".toList]

/-- The state after parsing `cexLinesC10` (in the exact-rational model). -/
def cexStateC10 : ParserState :=
  match parseLines initState cexLinesC10 with
  | .ok s => s
  | .error _ => initState

/-! Helper lemmas: a successful structured match implies its guard
substring is present, and the resulting shape of the dispatch. -/

theorem lit_startsWith : ∀ (pat s r : List Char), lit pat s = some r → startsWith pat s = true
  | [], _, _, _ => rfl
  | _ :: _, [], _, h => by simp [lit] at h
  | p :: ps, c :: cs, r, h => by
    simp only [lit] at h
    by_cases hpc : p = c
    · rw [if_pos hpc] at h
      simp [startsWith, hpc, lit_startsWith ps cs r h]
    · rw [if_neg hpc] at h
      exact absurd h (by simp)

theorem connHere_starts (s : List Char) (g : ConnMatch) (h : connHere s = some g) :
    startsWith gIncoming s = true := by
  cases hl : lit gIncoming s with
  | none => unfold connHere at h; rw [hl] at h; simp at h
  | some s1 => exact lit_startsWith _ _ _ hl

theorem nqHere_starts (s : List Char) (g : NewQueryMatch) (h : nqHere s = some g) :
    startsWith gOnConn s = true := by
  cases hl : lit gOnConn s with
  | none => unfold nqHere at h; rw [hl] at h; simp at h
  | some s1 => exact lit_startsWith _ _ _ hl

theorem endHere_starts (s : List Char) (g : EndMatch) (h : endHere s = some g) :
    startsWith gEnd s = true := by
  cases hl : lit gEnd s with
  | none => unfold endHere at h; rw [hl] at h; simp at h
  | some s1 => exact lit_startsWith _ _ _ hl

theorem connSearch_contains :
    ∀ (line : List Char) (g : ConnMatch), connSearch line = some g →
      containsSub gIncoming line = true := by
  intro line
  induction line with
  | nil => intro g h; simp [connSearch] at h
  | cons c t ih =>
    intro g h
    rw [connSearch] at h
    rw [containsSub]
    cases hh : connHere (c :: t) with
    | some g0 => simp [connHere_starts _ _ hh]
    | none =>
      rw [hh] at h
      simp [ih g h]

theorem nqSearch_contains :
    ∀ (line : List Char) (g : NewQueryMatch), nqSearch line = some g →
      containsSub gOnConn line = true := by
  intro line
  induction line with
  | nil => intro g h; simp [nqSearch] at h
  | cons c t ih =>
    intro g h
    rw [nqSearch] at h
    rw [containsSub]
    cases hh : nqHere (c :: t) with
    | some g0 => simp [nqHere_starts _ _ hh]
    | none =>
      rw [hh] at h
      simp [ih g h]

theorem endSearch_contains :
    ∀ (line : List Char) (g : EndMatch), endSearch line = some g →
      containsSub gEnd line = true := by
  intro line
  induction line with
  | nil => intro g h; simp [endSearch] at h
  | cons c t ih =>
    intro g h
    rw [endSearch] at h
    rw [containsSub]
    cases hh : endHere (c :: t) with
    | some g0 => simp [endHere_starts _ _ hh]
    | none =>
      rw [hh] at h
      simp [ih g h]

theorem processLine_conn (s : ParserState) (line : List Char) (g : ConnMatch)
    (h : connSearch line = some g) :
    processLine s line = .ok (applyConnection s g) := by
  have hg := connSearch_contains line g h
  unfold processLine parseConnection
  rw [hg, h]
  simp

theorem processLine_noConn (s : ParserState) (line : List Char)
    (h : connSearch line = none) :
    processLine s line = processAfterConn s line := by
  unfold processLine
  split
  · simp [parseConnection, h]
  · rfl

theorem processAfterConn_nq (s : ParserState) (line : List Char) (g : NewQueryMatch)
    (h : nqSearch line = some g) :
    processAfterConn s line = .ok (applyNewQuery s g) := by
  have hg := nqSearch_contains line g h
  unfold processAfterConn parseNewQuery
  rw [hg, h]
  simp

theorem processAfterConn_noNq (s : ParserState) (line : List Char)
    (h : nqSearch line = none) :
    processAfterConn s line = processAfterNQ s line := by
  unfold processAfterConn
  split
  · simp [parseNewQuery, h]
  · rfl

theorem processAfterNQ_end (s : ParserState) (line : List Char) (g : EndMatch)
    (h : endSearch line = some g) :
    processAfterNQ s line = applyEndQuery s g line := by
  have hg := endSearch_contains line g h
  unfold processAfterNQ parseEndQuery
  rw [hg, h]
  cases hE : applyEndQuery s g line <;> simp [hE]

theorem processAfterNQ_noEnd (s : ParserState) (line : List Char)
    (h : endSearch line = none) :
    processAfterNQ s line = .ok s := by
  unfold processAfterNQ
  split
  · simp [parseEndQuery, h]
  · rfl

theorem mem_setAdd_self {α : Type} [DecidableEq α] (s : List α) (a : α) :
    a ∈ setAdd s a := by
  unfold setAdd
  split
  · assumption
  · simp

theorem length_setAdd_notMem {α : Type} [DecidableEq α] (s : List α) (a : α)
    (h : a ∉ s) : (setAdd s a).length = s.length + 1 := by
  simp [setAdd, h]

theorem pyFloat_nonneg (s : List Char) (q : ℚ) (h : pyFloat s = some q) : 0 ≤ q := by
  unfold pyFloat at h
  split at h
  · split at h
    · exact absurd h (by simp)
    · have hq : ((parseNatL s : ℚ)) = q := by simpa using h
      rw [← hq]; positivity
  · split at h
    · split at h
      · exact absurd h (by simp)
      · have hq : (parseNatL (s.takeWhile (fun c => c ≠ '.')) : ℚ) +
            (parseNatL ((s.dropWhile (fun c => c ≠ '.')).drop 1) : ℚ) /
              ((10 : ℚ) ^ ((s.dropWhile (fun c => c ≠ '.')).drop 1).length) = q := by
          simpa using h
        rw [← hq]; positivity
    · exact absurd h (by simp)

theorem dictGet_dictSet_self {α β : Type} [DecidableEq α] :
    ∀ (d : List (α × β)) (k : α) (v : β), dictGet (dictSet d k v) k = some v := by
  intro d k v
  induction d with
  | nil => simp [dictSet, dictGet]
  | cons kv rest ih =>
    obtain ⟨k0, v0⟩ := kv
    by_cases h : k0 = k
    · simp [dictSet, dictGet, h]
    · simp [dictSet, dictGet, h, ih]

theorem updFirst_some (f t : ℕ) : updFirst (some f) t = some (min f t) := by
  rcases lt_or_ge t f with h | h
  · simp [updFirst, h, min_eq_right (le_of_lt h)]
  · simp [updFirst, not_lt_of_ge h, min_eq_left h]

theorem updLast_some (l t : ℕ) : updLast (some l) t = some (max l t) := by
  rcases lt_or_ge l t with h | h
  · simp [updLast, h, max_eq_right (le_of_lt h)]
  · simp [updLast, not_lt_of_ge h, max_eq_left h]

theorem updFirst_ne_none (o : Option ℕ) (t : ℕ) : updFirst o t ≠ none := by
  cases o with
  | none => simp [updFirst]
  | some f => rw [updFirst_some]; simp

theorem updLast_ne_none (o : Option ℕ) (t : ℕ) : updLast o t ≠ none := by
  cases o with
  | none => simp [updLast]
  | some l => rw [updLast_some]; simp

theorem foldFirstO_eq_none :
    ∀ (ts : List ℕ) (o : Option ℕ), foldFirstO o ts = none ↔ (o = none ∧ ts = []) := by
  intro ts
  induction ts with
  | nil => intro o; simp [foldFirstO]
  | cons t ts ih =>
    intro o
    have h1 : foldFirstO o (t :: ts) = foldFirstO (updFirst o t) ts := rfl
    rw [h1, ih]
    simp [updFirst_ne_none o t]

theorem foldLastO_eq_none :
    ∀ (ts : List ℕ) (o : Option ℕ), foldLastO o ts = none ↔ (o = none ∧ ts = []) := by
  intro ts
  induction ts with
  | nil => intro o; simp [foldLastO]
  | cons t ts ih =>
    intro o
    have h1 : foldLastO o (t :: ts) = foldLastO (updLast o t) ts := rfl
    rw [h1, ih]
    simp [updLast_ne_none o t]

theorem foldFirstO_spec :
    ∀ (ts : List ℕ) (o : Option ℕ) (m : ℕ), foldFirstO o ts = some m →
      (o = some m ∨ m ∈ ts) ∧ (∀ a, o = some a → m ≤ a) ∧ (∀ t ∈ ts, m ≤ t) := by
  intro ts
  induction ts with
  | nil =>
    intro o m h
    have ho : o = some m := h
    refine ⟨Or.inl ho, fun a ha => ?_, by simp⟩
    rw [ho] at ha
    exact le_of_eq (Option.some.inj ha)
  | cons t ts ih =>
    intro o m h
    have h1 : foldFirstO o (t :: ts) = foldFirstO (updFirst o t) ts := rfl
    rw [h1] at h
    obtain ⟨hmem, hbnd, hts⟩ := ih (updFirst o t) m h
    cases o with
    | none =>
      simp only [updFirst] at hmem hbnd
      refine ⟨?_, by simp, fun u hu => ?_⟩
      · rcases hmem with h2 | h2
        · exact Or.inr (by simp [Option.some.inj h2])
        · exact Or.inr (List.mem_cons_of_mem t h2)
      · rcases List.mem_cons.mp hu with rfl | hu
        · exact hbnd u rfl
        · exact hts _ hu
    | some f =>
      rw [updFirst_some] at hmem hbnd
      have hmf : m ≤ min f t := hbnd (min f t) rfl
      refine ⟨?_, fun a ha => ?_, fun u hu => ?_⟩
      · rcases hmem with h2 | h2
        · have h3 := Option.some.inj h2
          rcases le_total f t with h4 | h4
          · left
            rw [min_eq_left h4] at h3
            rw [h3]
          · right
            rw [min_eq_right h4] at h3
            rw [← h3]
            exact List.mem_cons_self t ts
        · exact Or.inr (List.mem_cons_of_mem t h2)
      · rw [← Option.some.inj ha]
        exact le_trans hmf (min_le_left _ _)
      · rcases List.mem_cons.mp hu with rfl | hu
        · exact le_trans hmf (min_le_right _ _)
        · exact hts _ hu

theorem foldLastO_spec :
    ∀ (ts : List ℕ) (o : Option ℕ) (m : ℕ), foldLastO o ts = some m →
      (o = some m ∨ m ∈ ts) ∧ (∀ a, o = some a → a ≤ m) ∧ (∀ t ∈ ts, t ≤ m) := by
  intro ts
  induction ts with
  | nil =>
    intro o m h
    have ho : o = some m := h
    refine ⟨Or.inl ho, fun a ha => ?_, by simp⟩
    rw [ho] at ha
    exact le_of_eq (Option.some.inj ha).symm
  | cons t ts ih =>
    intro o m h
    have h1 : foldLastO o (t :: ts) = foldLastO (updLast o t) ts := rfl
    rw [h1] at h
    obtain ⟨hmem, hbnd, hts⟩ := ih (updLast o t) m h
    cases o with
    | none =>
      simp only [updLast] at hmem hbnd
      refine ⟨?_, by simp, fun u hu => ?_⟩
      · rcases hmem with h2 | h2
        · exact Or.inr (by simp [Option.some.inj h2])
        · exact Or.inr (List.mem_cons_of_mem t h2)
      · rcases List.mem_cons.mp hu with rfl | hu
        · exact hbnd u rfl
        · exact hts _ hu
    | some l =>
      rw [updLast_some] at hmem hbnd
      have hml : max l t ≤ m := hbnd (max l t) rfl
      refine ⟨?_, fun a ha => ?_, fun u hu => ?_⟩
      · rcases hmem with h2 | h2
        · have h3 := Option.some.inj h2
          rcases le_total l t with h4 | h4
          · right
            rw [max_eq_right h4] at h3
            rw [← h3]
            exact List.mem_cons_self t ts
          · left
            rw [max_eq_left h4] at h3
            rw [h3]
        · exact Or.inr (List.mem_cons_of_mem t h2)
      · rw [← Option.some.inj ha]
        exact le_trans (le_max_left _ _) hml
      · rcases List.mem_cons.mp hu with rfl | hu
        · exact le_trans (le_max_right _ _) hml
        · exact hts _ hu

theorem char_of_toNat_48 (c : Char) (h0 : c.toNat = 48) : c = '0' := by
  exact_mod_cast Char.ofNat_toNat c ▸ (by rw [h0] : Char.ofNat c.toNat = Char.ofNat 48)

theorem isDigitC_toNat (c : Char) (h : isDigitC c = true) :
    48 ≤ c.toNat ∧ c.toNat ≤ 57 := by
  unfold isDigitC at h
  simp only [Bool.and_eq_true, decide_eq_true_eq] at h
  exact ⟨h.1, h.2⟩

theorem isDigitC_toNat_ge49 (c : Char) (h : isDigitC c = true) (hne : c ≠ '0') :
    49 ≤ c.toNat := by
  have h48 := (isDigitC_toNat c h).1
  rcases Nat.lt_or_ge c.toNat 49 with hlt | hge
  · exact absurd (char_of_toNat_48 c (by omega)) hne
  · exact hge

theorem parseNatL_foldl_ge :
    ∀ (p : List Char) (a : ℕ),
      a * 10 ^ p.length ≤ p.foldl (fun x c => x * 10 + (c.toNat - 48)) a := by
  intro p
  induction p with
  | nil => intro a; simp
  | cons c cs ih =>
    intro a
    simp only [List.foldl_cons, List.length_cons]
    calc a * 10 ^ (cs.length + 1) = (a * 10) * 10 ^ cs.length := by ring
    _ ≤ (a * 10 + (c.toNat - 48)) * 10 ^ cs.length :=
        Nat.mul_le_mul_right _ (Nat.le_add_right _ _)
    _ ≤ cs.foldl (fun x c => x * 10 + (c.toNat - 48)) (a * 10 + (c.toNat - 48)) := ih _

theorem parseNatL_big (c : Char) (cs : List Char) (hd : (c :: cs).all isDigitC = true)
    (hlen : 3 ≤ cs.length) (hz : c ≠ '0') : 1000 ≤ parseNatL (c :: cs) := by
  have hc : isDigitC c = true := by
    simp only [List.all_cons, Bool.and_eq_true] at hd
    exact hd.1
  have h49 := isDigitC_toNat_ge49 c hc hz
  unfold parseNatL
  simp only [List.foldl_cons]
  have hge := parseNatL_foldl_ge cs (0 * 10 + (c.toNat - 48))
  calc (1000 : ℕ) = 1 * 10 ^ 3 := by norm_num
  _ ≤ (c.toNat - 48) * 10 ^ cs.length := by
      apply Nat.mul_le_mul
      · omega
      · exact Nat.pow_le_pow_right (by norm_num) hlen
  _ = (0 * 10 + (c.toNat - 48)) * 10 ^ cs.length := by ring
  _ ≤ cs.foldl (fun x c => x * 10 + (c.toNat - 48)) (0 * 10 + (c.toNat - 48)) := hge

theorem validOctet_iff_specOctet (p : List Char) :
    validOctet p = true ↔ specOctet p = true := by
  unfold validOctet specOctet
  simp only [Bool.and_eq_true, Bool.or_eq_true, decide_eq_true_eq, Bool.not_eq_true']
  constructor
  · rintro ⟨⟨⟨⟨he, hd⟩, _⟩, hz⟩, hv⟩
    exact ⟨⟨⟨he, hd⟩, hz⟩, hv⟩
  · rintro ⟨⟨⟨he, hd⟩, hz⟩, hv⟩
    refine ⟨⟨⟨⟨he, hd⟩, ?_⟩, hz⟩, hv⟩
    by_contra hlen
    push_neg at hlen
    cases p with
    | nil => simp at he
    | cons c cs =>
      have hcs : 3 ≤ cs.length := by
        simp only [List.length_cons] at hlen
        omega
      have hznz : c ≠ '0' := by
        rcases hz with h1 | h1
        · exfalso
          simp only [List.length_cons] at h1
          omega
        · simpa using h1
      have hbig := parseNatL_big c cs hd hcs hznz
      omega

theorem isValidIPv4_iff_spec (t : List Char) :
    isValidIPv4 t = true ↔ specValidIPv4 t = true := by
  unfold isValidIPv4 specValidIPv4
  simp only [Bool.and_eq_true, List.all_eq_true, decide_eq_true_eq]
  constructor
  · rintro ⟨h4, hall⟩
    exact ⟨h4, fun p hp => (validOctet_iff_specOctet p).mp (hall p hp)⟩
  · rintro ⟨h4, hall⟩
    exact ⟨h4, fun p hp => (validOctet_iff_specOctet p).mpr (hall p hp)⟩

theorem nqTail_text (s : List Char) (g : NewQueryMatch) (h : nqTail s = some g) :
    g.text_decoded.isEmpty = false := by
  unfold nqTail at h
  split at h
  · exact absurd h (by simp)
  · split at h
    · exact absurd h (by simp)
    · split at h
      · exact absurd h (by simp)
      · split at h
        · exact absurd h (by simp)
        · split at h
          · exact absurd h (by simp)
          · split at h
            · exact absurd h (by simp)
            · split at h
              · exact absurd h (by simp)
              · next hne =>
                rw [← Option.some.inj h]
                simpa using hne

theorem dictGetD_dictSet_self {α β : Type} [DecidableEq α]
    (d : List (α × β)) (k : α) (v d0 : β) : dictGetD (dictSet d k v) k d0 = v := by
  unfold dictGetD
  rw [dictGet_dictSet_self]
  rfl

theorem if_gt_eq_max (m x : ℚ) : (if x > m then x else m) = max m x := by
  rcases le_or_lt x m with h | h
  · rw [if_neg (not_lt_of_ge h), max_eq_left h]
  · rw [if_pos h, max_eq_right (le_of_lt h)]

theorem applyConnection_fields (s : ParserState) (g : ConnMatch) :
    (applyConnection s g).first_end_time = s.first_end_time ∧
    (applyConnection s g).last_end_time = s.last_end_time ∧
    (applyConnection s g).total_time_working_ms = s.total_time_working_ms ∧
    (applyConnection s g).total_time_with_waiting_ms = s.total_time_with_waiting_ms ∧
    (applyConnection s g).max_handling_time_working_ms = s.max_handling_time_working_ms ∧
    (applyConnection s g).max_handling_time_with_waiting_ms =
      s.max_handling_time_with_waiting_ms ∧
    (applyConnection s g).finished_query_ids = s.finished_query_ids := by
  unfold applyConnection
  split <;> exact ⟨rfl, rfl, rfl, rfl, rfl, rfl, rfl⟩

theorem applyNewQuery_mem (s : ParserState) (g : NewQueryMatch)
    (h : parseNatL g.query_id ∈ s.new_query_ids) : applyNewQuery s g = s := by
  unfold applyNewQuery
  rw [if_pos h]

theorem applyNewQuery_fields (s : ParserState) (g : NewQueryMatch) :
    (applyNewQuery s g).first_end_time = s.first_end_time ∧
    (applyNewQuery s g).last_end_time = s.last_end_time ∧
    (applyNewQuery s g).total_time_working_ms = s.total_time_working_ms ∧
    (applyNewQuery s g).total_time_with_waiting_ms = s.total_time_with_waiting_ms ∧
    (applyNewQuery s g).max_handling_time_working_ms = s.max_handling_time_working_ms ∧
    (applyNewQuery s g).max_handling_time_with_waiting_ms =
      s.max_handling_time_with_waiting_ms ∧
    (applyNewQuery s g).finished_query_ids = s.finished_query_ids := by
  by_cases h : parseNatL g.query_id ∈ s.new_query_ids
  · rw [applyNewQuery_mem s g h]
    exact ⟨rfl, rfl, rfl, rfl, rfl, rfl, rfl⟩
  · by_cases htext : (stripL g.text_decoded).isEmpty = true
    all_goals cases hdg : dictGet s.connections g.conn_hex_id
    all_goals simp [applyNewQuery, if_neg h, hdg, htext]
    all_goals split <;> simp

theorem applyNewQuery_fresh (s : ParserState) (g : NewQueryMatch)
    (h3 : parseNatL g.query_id ∉ s.new_query_ids) :
    (applyNewQuery s g).new_query_ids = setAdd s.new_query_ids (parseNatL g.query_id) ∧
    ((stripL g.text_decoded).isEmpty = false →
      (applyNewQuery s g).request_freq =
        dictSet s.request_freq (stripL g.text_decoded)
          (dictGetD s.request_freq (stripL g.text_decoded) 0 + 1) ∧
      (applyNewQuery s g).total_words = s.total_words + countWords (stripL g.text_decoded)) ∧
    ((stripL g.text_decoded).isEmpty = true →
      (applyNewQuery s g).request_freq = s.request_freq ∧
      (applyNewQuery s g).total_words = s.total_words) := by
  by_cases htext : (stripL g.text_decoded).isEmpty = true
  all_goals cases hdg : dictGet s.connections g.conn_hex_id
  all_goals simp [applyNewQuery, if_neg h3, hdg, htext]
  all_goals split <;> simp

theorem applyEndQuery_mem (s : ParserState) (g : EndMatch) (line : List Char)
    (h : parseNatL g.query_id ∈ s.finished_query_ids) :
    applyEndQuery s g line = Except.ok s := by
  unfold applyEndQuery
  rw [if_pos h]

theorem applyEndQuery_fresh (s : ParserState) (g : EndMatch) (line : List Char)
    (tt tw : ℚ) (tso : Option ℕ)
    (h4 : parseNatL g.query_id ∉ s.finished_query_ids)
    (h5 : pyFloat g.time_total_ms = some tt)
    (h6 : pyFloat g.time_working_ms = some tw)
    (h7 : extractInternalTimestamp line = Except.ok tso) :
    applyEndQuery s g line = Except.ok (endUpd s (parseNatL g.query_id) tt tw tso) := by
  cases tso with
  | none => simp [applyEndQuery, if_neg h4, h5, h6, h7, endUpd, if_gt_eq_max]
  | some t => simp [applyEndQuery, if_neg h4, h5, h6, h7, endUpd, if_gt_eq_max]

theorem processLine_ok_cases (s : ParserState) (line : List Char) (s1 : ParserState)
    (h : processLine s line = Except.ok s1) :
    (∃ g, connSearch line = some g ∧ s1 = applyConnection s g) ∨
    (connSearch line = none ∧ ∃ g, nqSearch line = some g ∧ s1 = applyNewQuery s g) ∨
    (connSearch line = none ∧ nqSearch line = none ∧ endSearch line = none ∧ s1 = s) ∨
    (connSearch line = none ∧ nqSearch line = none ∧
      ∃ g, endSearch line = some g ∧ applyEndQuery s g line = Except.ok s1) := by
  cases hc : connSearch line with
  | some g =>
    rw [processLine_conn s line g hc] at h
    exact Or.inl ⟨g, rfl, (Except.ok.inj h).symm⟩
  | none =>
    rw [processLine_noConn s line hc] at h
    cases hn : nqSearch line with
    | some g =>
      rw [processAfterConn_nq s line g hn] at h
      exact Or.inr (Or.inl ⟨rfl, g, rfl, (Except.ok.inj h).symm⟩)
    | none =>
      rw [processAfterConn_noNq s line hn] at h
      cases he : endSearch line with
      | none =>
        rw [processAfterNQ_noEnd s line he] at h
        exact Or.inr (Or.inr (Or.inl ⟨rfl, rfl, rfl, (Except.ok.inj h).symm⟩))
      | some g =>
        rw [processAfterNQ_end s line g he] at h
        exact Or.inr (Or.inr (Or.inr ⟨rfl, rfl, g, rfl, h⟩))

theorem applyEndQuery_ok_cases (s : ParserState) (g : EndMatch) (line : List Char)
    (s1 : ParserState) (h : applyEndQuery s g line = Except.ok s1) :
    (parseNatL g.query_id ∈ s.finished_query_ids ∧ s1 = s) ∨
    (parseNatL g.query_id ∉ s.finished_query_ids ∧
      ∃ tt tw tso, pyFloat g.time_total_ms = some tt ∧
        pyFloat g.time_working_ms = some tw ∧
        extractInternalTimestamp line = Except.ok tso ∧
        s1 = endUpd s (parseNatL g.query_id) tt tw tso) := by
  by_cases hd : parseNatL g.query_id ∈ s.finished_query_ids
  · rw [applyEndQuery_mem s g line hd] at h
    exact Or.inl ⟨hd, (Except.ok.inj h).symm⟩
  · right
    refine ⟨hd, ?_⟩
    cases h5 : pyFloat g.time_total_ms with
    | none => simp [applyEndQuery, if_neg hd, h5] at h
    | some tt =>
      cases h6 : pyFloat g.time_working_ms with
      | none => simp [applyEndQuery, if_neg hd, h5, h6] at h
      | some tw =>
        cases h7 : extractInternalTimestamp line with
        | error e => simp [applyEndQuery, if_neg hd, h5, h6, h7] at h
        | ok tso =>
          rw [applyEndQuery_fresh s g line tt tw tso hd h5 h6 h7] at h
          exact ⟨tt, tw, tso, rfl, rfl, rfl, (Except.ok.inj h).symm⟩

theorem step_first_last (s : ParserState) (line : List Char) (s1 : ParserState)
    (h : processLine s line = Except.ok s1) :
    s1.first_end_time =
      (stepCaptured s line).elim s.first_end_time (updFirst s.first_end_time) ∧
    s1.last_end_time =
      (stepCaptured s line).elim s.last_end_time (updLast s.last_end_time) := by
  rcases processLine_ok_cases s line s1 h with
    ⟨g, hc, rfl⟩ | ⟨hc, g, hn, rfl⟩ | ⟨hc, hn, he, rfl⟩ | ⟨hc, hn, g, he, hE⟩
  · have hf := applyConnection_fields s g
    simp [stepCaptured, hc, hf.1, hf.2.1]
  · have hf := applyNewQuery_fields s g
    simp [stepCaptured, hc, hn, hf.1, hf.2.1]
  · simp [stepCaptured, hc, hn, he]
  · rcases applyEndQuery_ok_cases s g line s1 hE with ⟨hd, rfl⟩ | ⟨hd, tt, tw, tso, h5, h6, h7, rfl⟩
    · simp [stepCaptured, hc, hn, he, hd]
    · cases tso with
      | none => simp [stepCaptured, hc, hn, he, hd, h7, endUpd]
      | some t => simp [stepCaptured, hc, hn, he, hd, h7, endUpd]

theorem step_invq (s : ParserState) (line : List Char) (s1 : ParserState)
    (h : processLine s line = Except.ok s1) (hi : InvQ s) : InvQ s1 := by
  obtain ⟨i1, i2, i3, i4, i5, i6⟩ := hi
  rcases processLine_ok_cases s line s1 h with
    ⟨g, hc, rfl⟩ | ⟨hc, g, hn, rfl⟩ | ⟨hc, hn, he, rfl⟩ | ⟨hc, hn, g, he, hE⟩
  · obtain ⟨_, _, f3, f4, f5, f6, f7⟩ := applyConnection_fields s g
    exact ⟨f3 ▸ i1, f4 ▸ i2, f5 ▸ i3, f6 ▸ i4,
      by rw [f3, f5, f7]; exact i5, by rw [f4, f6, f7]; exact i6⟩
  · obtain ⟨_, _, f3, f4, f5, f6, f7⟩ := applyNewQuery_fields s g
    exact ⟨f3 ▸ i1, f4 ▸ i2, f5 ▸ i3, f6 ▸ i4,
      by rw [f3, f5, f7]; exact i5, by rw [f4, f6, f7]; exact i6⟩
  · exact ⟨i1, i2, i3, i4, i5, i6⟩
  · rcases applyEndQuery_ok_cases s g line s1 hE with ⟨hd, rfl⟩ | ⟨hd, tt, tw, tso, h5, h6, h7, rfl⟩
    · exact ⟨i1, i2, i3, i4, i5, i6⟩
    · have htt := pyFloat_nonneg _ _ h5
      have htw := pyFloat_nonneg _ _ h6
      have hlen : ((setAdd s.finished_query_ids (parseNatL g.query_id)).length : ℚ) =
          (s.finished_query_ids.length : ℚ) + 1 := by
        rw [length_setAdd_notMem _ _ hd]
        push_cast
        ring
      have hc0 : (0 : ℚ) ≤ (s.finished_query_ids.length : ℚ) := by positivity
      refine ⟨?_, ?_, ?_, ?_, ?_, ?_⟩
      · exact add_nonneg i1 htw
      · exact add_nonneg i2 htt
      · exact le_trans i3 (le_max_left _ _)
      · exact le_trans i4 (le_max_left _ _)
      · show s.total_time_working_ms + tw ≤
          ((setAdd s.finished_query_ids (parseNatL g.query_id)).length : ℚ) *
            max s.max_handling_time_working_ms tw
        rw [hlen]
        have hb1 : s.total_time_working_ms ≤
            (s.finished_query_ids.length : ℚ) * max s.max_handling_time_working_ms tw :=
          le_trans i5 (mul_le_mul_of_nonneg_left (le_max_left _ _) hc0)
        have hb2 : tw ≤ max s.max_handling_time_working_ms tw := le_max_right _ _
        nlinarith [hb1, hb2]
      · show s.total_time_with_waiting_ms + tt ≤
          ((setAdd s.finished_query_ids (parseNatL g.query_id)).length : ℚ) *
            max s.max_handling_time_with_waiting_ms tt
        rw [hlen]
        have hb1 : s.total_time_with_waiting_ms ≤
            (s.finished_query_ids.length : ℚ) * max s.max_handling_time_with_waiting_ms tt :=
          le_trans i6 (mul_le_mul_of_nonneg_left (le_max_left _ _) hc0)
        have hb2 : tt ≤ max s.max_handling_time_with_waiting_ms tt := le_max_right _ _
        nlinarith [hb1, hb2]

theorem capturedTs_cons (s : ParserState) (l : List Char) (ls : List (List Char))
    (s2 : ParserState) (hp : processLine s l = Except.ok s2) :
    capturedTs s (l :: ls) = (stepCaptured s l).toList ++ capturedTs s2 ls := by
  rw [capturedTs, hp]

theorem parseLines_first_last :
    ∀ (lines : List (List Char)) (s s1 : ParserState),
      parseLines s lines = Except.ok s1 →
      s1.first_end_time = foldFirstO s.first_end_time (capturedTs s lines) ∧
      s1.last_end_time = foldLastO s.last_end_time (capturedTs s lines) := by
  intro lines
  induction lines with
  | nil =>
    intro s s1 h
    have h2 : Except.ok (ε := Unit) s = Except.ok s1 := h
    rw [← Except.ok.inj h2]
    exact ⟨rfl, rfl⟩
  | cons l ls ih =>
    intro s s1 h
    rw [parseLines] at h
    cases hp : processLine s l with
    | error e =>
      rw [hp] at h
      exact absurd h (by simp)
    | ok s2 =>
      rw [hp] at h
      have h2 : parseLines s2 ls = Except.ok s1 := h
      obtain ⟨hf, hl⟩ := ih s2 s1 h2
      obtain ⟨sf, sl⟩ := step_first_last s l s2 hp
      rw [capturedTs_cons s l ls s2 hp]
      constructor
      · rw [hf, sf]
        cases hsc : stepCaptured s l with
        | none => simp
        | some t => simp [foldFirstO]
      · rw [hl, sl]
        cases hsc : stepCaptured s l with
        | none => simp
        | some t => simp [foldLastO]

theorem parseLines_invq :
    ∀ (lines : List (List Char)) (s s1 : ParserState),
      parseLines s lines = Except.ok s1 → InvQ s → InvQ s1 := by
  intro lines
  induction lines with
  | nil =>
    intro s s1 h hi
    have h2 : Except.ok (ε := Unit) s = Except.ok s1 := h
    rw [← Except.ok.inj h2]
    exact hi
  | cons l ls ih =>
    intro s s1 h hi
    rw [parseLines] at h
    cases hp : processLine s l with
    | error e =>
      rw [hp] at h
      exact absurd h (by simp)
    | ok s2 =>
      rw [hp] at h
      have h2 : parseLines s2 ls = Except.ok s1 := h
      exact ih s2 s1 h2 (step_invq s l s2 hp hi)

theorem initState_invq : InvQ initState := by
  refine ⟨le_refl 0, le_refl 0, le_refl 0, le_refl 0, ?_, ?_⟩ <;> simp [initState]

theorem int_cast_abs_ge_one (z : ℤ) (hz : z ≠ 0) : (1 : ℚ) ≤ |(z : ℚ)| := by
  have h1 : (1 : ℤ) ≤ |z| := by
    rcases lt_or_gt_of_ne hz with h | h
    · rw [abs_of_neg h]; omega
    · rw [abs_of_pos h]; omega
  calc (1 : ℚ) = ((1 : ℤ) : ℚ) := by norm_num
  _ ≤ ((|z| : ℤ) : ℚ) := by exact_mod_cast h1
  _ = |(z : ℚ)| := by push_cast; rfl

theorem rounds64_exact_boundary (q x : ℚ) (m e : ℤ) (k : ℕ)
    (hxe : x = (m : ℚ) * (2 : ℚ) ^ e) (hq : q = (2 : ℚ) ^ (e + (k : ℤ)))
    (hd : |q - x| ≤ (2 : ℚ) ^ e / 2) : x = q := by
  have h2e : (0 : ℚ) < (2 : ℚ) ^ e := zpow_pos (by norm_num) e
  have hsplit : (2 : ℚ) ^ (e + (k : ℤ)) = (2 : ℚ) ^ e * (2 : ℚ) ^ (k : ℤ) :=
    zpow_add₀ (by norm_num) e k
  have hsub : q - x = ((2 ^ k - m : ℤ) : ℚ) * (2 : ℚ) ^ e := by
    rw [hq, hxe, hsplit, zpow_natCast]
    push_cast
    ring
  have habs : |((2 ^ k - m : ℤ) : ℚ)| * (2 : ℚ) ^ e ≤ (2 : ℚ) ^ e / 2 := by
    calc |((2 ^ k - m : ℤ) : ℚ)| * (2 : ℚ) ^ e
        = |((2 ^ k - m : ℤ) : ℚ) * (2 : ℚ) ^ e| := by rw [abs_mul, abs_of_pos h2e]
    _ = |q - x| := by rw [hsub]
    _ ≤ (2 : ℚ) ^ e / 2 := hd
  have hle : |((2 ^ k - m : ℤ) : ℚ)| ≤ 1 / 2 := by
    by_contra hgt
    push_neg at hgt
    have hlt : (2 : ℚ) ^ e / 2 < |((2 ^ k - m : ℤ) : ℚ)| * (2 : ℚ) ^ e := by
      have h1 := mul_lt_mul_of_pos_right hgt h2e
      linarith
    linarith
  have hz : (2 ^ k - m : ℤ) = 0 := by
    by_contra hne
    have h1 := int_cast_abs_ge_one _ hne
    linarith
  have hm : m = 2 ^ k := by omega
  rw [hxe, hm, hq, hsplit, zpow_natCast]
  push_cast
  ring

theorem rounds64_unique_aux (q x y : ℚ) (m e n f : ℤ)
    (hxe : x = (m : ℚ) * (2 : ℚ) ^ e) (hqb : q ≤ (2 : ℚ) ^ (e + 53))
    (hdx : |q - x| ≤ (2 : ℚ) ^ e / 2)
    (hye : y = (n : ℚ) * (2 : ℚ) ^ f) (hqc : (2 : ℚ) ^ (f + 52) ≤ q)
    (hdy : |q - y| ≤ (2 : ℚ) ^ f / 2)
    (hef : e < f) : x = q ∧ y = q := by
  have hmono : (2 : ℚ) ^ (e + 53) ≤ (2 : ℚ) ^ (f + 52) :=
    zpow_le_zpow_right₀ (by norm_num) (by omega)
  have hq1 : q = (2 : ℚ) ^ (e + 53) := le_antisymm hqb (le_trans hmono hqc)
  have hq2 : q = (2 : ℚ) ^ (f + 52) := le_antisymm (by rw [hq1]; exact hmono) hqc
  refine ⟨rounds64_exact_boundary q x m e 53 hxe ?_ hdx,
    rounds64_exact_boundary q y n f 52 hye ?_ hdy⟩
  · exact_mod_cast hq1
  · exact_mod_cast hq2

theorem rounds64_unique (q x y : ℚ) (hx : rounds64 q x) (hy : rounds64 q y) :
    x = y := by
  obtain ⟨m, e, hxe, hm1, hm2, hqa, hqb, hdx, htx⟩ := hx
  obtain ⟨n, f, hye, hn1, hn2, hqc, hqd, hdy, hty⟩ := hy
  rcases lt_trichotomy e f with hef | hef | hef
  · obtain ⟨h1, h2⟩ := rounds64_unique_aux q x y m e n f hxe hqb hdx hye hqc hdy hef
    rw [h1, h2]
  · subst hef
    have h2e : (0 : ℚ) < (2 : ℚ) ^ e := zpow_pos (by norm_num) e
    by_cases hmn : m = n
    · rw [hxe, hye, hmn]
    · exfalso
      have hxy : x - y = ((m - n : ℤ) : ℚ) * (2 : ℚ) ^ e := by
        rw [hxe, hye]
        push_cast
        ring
      have hone : (1 : ℚ) ≤ |((m - n : ℤ) : ℚ)| :=
        int_cast_abs_ge_one _ (sub_ne_zero.mpr hmn)
      have habs : |x - y| = |((m - n : ℤ) : ℚ)| * (2 : ℚ) ^ e := by
        rw [hxy, abs_mul, abs_of_pos h2e]
      have hge : (2 : ℚ) ^ e ≤ |x - y| := by
        rw [habs]
        calc (2 : ℚ) ^ e = 1 * (2 : ℚ) ^ e := by ring
        _ ≤ |((m - n : ℤ) : ℚ)| * (2 : ℚ) ^ e :=
            mul_le_mul_of_nonneg_right hone (le_of_lt h2e)
      have htri : |x - y| ≤ |q - x| + |q - y| := by
        calc |x - y| ≤ |x - q| + |q - y| := abs_sub_le x q y
        _ = |q - x| + |q - y| := by rw [abs_sub_comm x q]
      have hdx2 : |q - x| = (2 : ℚ) ^ e / 2 := by
        rcases lt_or_eq_of_le hdx with hlt | heq
        · exfalso; linarith
        · exact heq
      have hdy2 : |q - y| = (2 : ℚ) ^ e / 2 := by
        rcases lt_or_eq_of_le hdy with hlt | heq
        · exfalso; linarith
        · exact heq
      have hme := htx hdx2
      have hne2 := hty hdy2
      have hle1 : |x - y| ≤ (2 : ℚ) ^ e := by linarith
      have hcast : |((m - n : ℤ) : ℚ)| ≤ 1 := by
        by_contra hgt
        push_neg at hgt
        have hlt : (2 : ℚ) ^ e < |((m - n : ℤ) : ℚ)| * (2 : ℚ) ^ e := by
          have h1 := mul_lt_mul_of_pos_right hgt h2e
          linarith
        rw [habs] at hle1
        linarith
      have hint : |m - n| ≤ 1 := by
        have h1 : ((|m - n| : ℤ) : ℚ) ≤ 1 := by
          rw [Int.cast_abs]
          exact hcast
        exact_mod_cast h1
      have h2 := abs_le.mp hint
      omega
  · obtain ⟨h1, h2⟩ := rounds64_unique_aux q y x n f m e hye hqd hdy hxe hqa hdx hef
    rw [h1, h2]

theorem pyFloat_zeroPointOne : pyFloat "0.1".toList = some (1 / 10) := by
  have h : pyFloat "0.1".toList =
      some ((parseNatL (("0.1".toList).takeWhile (fun c => c ≠ '.')) : ℚ) +
        (parseNatL ((("0.1".toList).dropWhile (fun c => c ≠ '.')).drop 1) : ℚ) /
          (10 : ℚ) ^ ((("0.1".toList).dropWhile (fun c => c ≠ '.')).drop 1).length) := rfl
  rw [h, show parseNatL (("0.1".toList).takeWhile (fun c => c ≠ '.')) = 0 from rfl,
    show parseNatL ((("0.1".toList).dropWhile (fun c => c ≠ '.')).drop 1) = 1 from rfl,
    show ((("0.1".toList).dropWhile (fun c => c ≠ '.')).drop 1).length = 1 from rfl]
  norm_num

theorem rounds64_fl01 : rounds64 (1 / 10) fl01 := by
  refine ⟨7205759403792794, -56, ?_, by norm_num, by norm_num, ?_, ?_, ?_, ?_⟩
  · rw [fl01]
    norm_num
  · norm_num
  · norm_num
  · rw [abs_le]
    constructor <;> (rw [fl01]; norm_num)
  · intro _
    norm_num

theorem rounds64_fl02 : rounds64 (fl01 + fl01) fl02 := by
  refine ⟨7205759403792794, -55, ?_, by norm_num, by norm_num, ?_, ?_, ?_, ?_⟩
  · rw [fl02]
    norm_num
  · rw [fl01]
    norm_num
  · rw [fl01]
    norm_num
  · rw [abs_le]
    constructor <;> (rw [fl01, fl02]; norm_num)
  · intro _
    norm_num

theorem rounds64_fl03 : rounds64 (fl02 + fl01) fl03 := by
  refine ⟨5404319552844596, -54, ?_, by norm_num, by norm_num, ?_, ?_, ?_, ?_⟩
  · rw [fl03]
    norm_num
  · rw [fl01, fl02]
    norm_num
  · rw [fl01, fl02]
    norm_num
  · rw [abs_le]
    constructor <;> (rw [fl01, fl02, fl03]; norm_num)
  · intro _
    norm_num

theorem rounds64_flAvg : rounds64 (fl03 / 3) flAvg := by
  refine ⟨7205759403792795, -56, ?_, by norm_num, by norm_num, ?_, ?_, ?_, ?_⟩
  · rw [flAvg]
    norm_num
  · rw [fl03]
    norm_num
  · rw [fl03]
    norm_num
  · rw [abs_le]
    constructor <;> (rw [fl03, flAvg]; norm_num)
  · intro h
    exfalso
    rw [abs_of_nonpos (by rw [fl03, flAvg]; norm_num)] at h
    rw [fl03, flAvg] at h
    norm_num at h

theorem nqSearch_text :
    ∀ (line : List Char) (g : NewQueryMatch), nqSearch line = some g →
      g.text_decoded.isEmpty = false := by
  intro line
  induction line with
  | nil => intro g h; simp [nqSearch] at h
  | cons c t ih =>
    intro g h
    rw [nqSearch] at h
    cases hh : nqHere (c :: t) with
    | some g0 =>
      rw [hh] at h
      obtain rfl := Option.some.inj h
      unfold nqHere at hh
      cases hl : lit gOnConn (c :: t) with
      | none => rw [hl] at hh; simp at hh
      | some s1 => rw [hl] at hh; exact nqTail_text s1 g0 hh
    | none =>
      rw [hh] at h
      exact ih g h

/-! Claim theorems. -/

/-- Claim C1, counterexample: on `cexLineC1` the connection guard substring
is present and the connection structured match fails, yet the line is not
treated as unmatched — the query-start category still processes it and
changes the state. -/
theorem C1_cex :
    containsSub gIncoming cexLineC1 = true ∧ connSearch cexLineC1 = none ∧
    processLine initState cexLineC1 = Except.ok cexStateC1 ∧ cexStateC1 ≠ initState :=
  ⟨rfl, rfl, rfl, by decide⟩

/-- Claim C1 (amended): when a category's guard substring is present but
its structured match fails, the line is treated as unmatched by that
category, but the remaining categories in the fixed order are still
attempted on the same line. -/
theorem C1_amended (s : ParserState) (line : List Char) :
    (containsSub gIncoming line = true → connSearch line = none →
      processLine s line = processAfterConn s line) ∧
    (containsSub gOnConn line = true → nqSearch line = none →
      processAfterConn s line = processAfterNQ s line) :=
  ⟨fun _ h => processLine_noConn s line h, fun _ h => processAfterConn_noNq s line h⟩

/-- Claim C1 witness: on a line where all three guards are present and all
three structured matches fail, the dispatch falls through both stages. -/
theorem C1_amended_wit :
    processLine initState wLineC1 = processAfterConn initState wLineC1 ∧
    processAfterConn initState wLineC1 = processAfterNQ initState wLineC1 :=
  ⟨(C1_amended initState wLineC1).1 rfl rfl, (C1_amended initState wLineC1).2 rfl rfl⟩

/-- Claim C2, counterexample: a query-end line whose total-ms field matches
`[\d.]+` but is not a valid float makes processing raise an uncaught
exception instead of skipping the line. -/
theorem C2_cex :
    (endSearch cexLineC2).isSome = true ∧
    processLine initState cexLineC2 = Except.error () :=
  ⟨rfl, rfl⟩

/-- Claim C2 (amended): processing a line raises an uncaught exception
exactly when the line reaches the query-end branch with a successful
structured match on a first-seen query id and either a millisecond field
fails `float` parsing or the bracketed timestamp matches but is an invalid
date/time; a line on which all three structured matches fail is skipped
silently with no state change. -/
theorem C2_amended (s : ParserState) (line : List Char) :
    (processLine s line = Except.error () ↔ lineRaises s line = true) ∧
    (connSearch line = none → nqSearch line = none → endSearch line = none →
      processLine s line = Except.ok s) := by
  constructor
  · cases hc : connSearch line with
    | some g =>
      rw [processLine_conn s line g hc]
      simp [lineRaises, hc]
    | none =>
      rw [processLine_noConn s line hc]
      cases hn : nqSearch line with
      | some g =>
        rw [processAfterConn_nq s line g hn]
        simp [lineRaises, hc, hn]
      | none =>
        rw [processAfterConn_noNq s line hn]
        cases he : endSearch line with
        | none =>
          rw [processAfterNQ_noEnd s line he]
          simp [lineRaises, hc, hn, he]
        | some g =>
          rw [processAfterNQ_end s line g he]
          by_cases hd : parseNatL g.query_id ∈ s.finished_query_ids
          · rw [applyEndQuery_mem s g line hd]
            simp [lineRaises, hc, hn, he, hd]
          · cases h5 : pyFloat g.time_total_ms with
            | none => simp [applyEndQuery, lineRaises, hc, hn, he, if_neg hd, hd, h5]
            | some tt =>
              cases h6 : pyFloat g.time_working_ms with
              | none => simp [applyEndQuery, lineRaises, hc, hn, he, if_neg hd, hd, h5, h6]
              | some tw =>
                cases h7 : extractInternalTimestamp line with
                | error e =>
                  simp [applyEndQuery, lineRaises, hc, hn, he, if_neg hd, hd, h5, h6, h7]
                | ok tso =>
                  rw [applyEndQuery_fresh s g line tt tw tso hd h5 h6 h7]
                  simp [lineRaises, hc, hn, he, hd, h5, h6, h7]
  · intro h1 h2 h3
    rw [processLine_noConn s line h1, processAfterConn_noNq s line h2,
      processAfterNQ_noEnd s line h3]

/-- Claim C2 witness: a line with no guard substring is processed without
exception and without any state change. -/
theorem C2_amended_wit :
    (processLine initState wLineC2 = Except.error () ↔
      lineRaises initState wLineC2 = true) ∧
    processLine initState wLineC2 = Except.ok initState :=
  ⟨(C2_amended initState wLineC2).1, (C2_amended initState wLineC2).2 rfl rfl rfl⟩

/-- Claim C3, counterexample: the token `01.2.3.4` is four dot-separated
decimal groups each in [0,255] — so the claim calls it valid — but the
code's validator (`ipaddress.IPv4Address`, which rejects leading zeros)
refuses it, and a connection line carrying `01.2.3.4:80` stores the whole
raw token in the invalid set. -/
theorem C3_cex :
    claimValidIPv4 "01.2.3.4".toList = true ∧
    isValidIPv4 "01.2.3.4".toList = false ∧
    processLine initState cexLineC3 = Except.ok { initState with
      invalid_ips := ["01.2.3.4:80".toList]
      connections := [("ee".toList, "01.2.3.4:80".toList)] } :=
  ⟨rfl, rfl, rfl⟩

/-- Claim C3 (amended): the token is split once on the first colon and only
the prefix is validated; validation succeeds iff the candidate is exactly
four dot-separated decimal groups each in [0,255] with no extra characters
and no leading zero unless the group is exactly `0`; on success the address
portion is stored in the valid-address set and as the connection's mapping;
on failure the entire original raw token is stored verbatim in the
invalid-address set and as the connection's mapping. -/
theorem C3_amended (s : ParserState) (line : List Char) (g : ConnMatch)
    (h : connSearch line = some g) :
    (∀ t, isValidIPv4 t = true ↔ specValidIPv4 t = true) ∧
    (g.raw_ip_port.contains ':' = true →
      extractIp g.raw_ip_port =
        (if isValidIPv4 (g.raw_ip_port.takeWhile (fun c => c ≠ ':')) then
          some (g.raw_ip_port.takeWhile (fun c => c ≠ ':'))
        else none)) ∧
    (g.raw_ip_port.contains ':' = false →
      extractIp g.raw_ip_port =
        (if isValidIPv4 g.raw_ip_port then some g.raw_ip_port else none)) ∧
    (∀ ip, extractIp g.raw_ip_port = some ip →
      processLine s line = Except.ok { s with
        all_ips := setAdd s.all_ips ip
        connections := dictSet s.connections g.conn_hex_id ip }) ∧
    (extractIp g.raw_ip_port = none →
      processLine s line = Except.ok { s with
        invalid_ips := setAdd s.invalid_ips g.raw_ip_port
        connections := dictSet s.connections g.conn_hex_id g.raw_ip_port }) := by
  refine ⟨isValidIPv4_iff_spec, ?_, ?_, ?_, ?_⟩
  · intro hc
    simp only [extractIp, hc]
    simp
  · intro hc
    simp only [extractIp, hc]
    simp
  · intro ip hip
    rw [processLine_conn s line g h]
    unfold applyConnection
    rw [hip]
  · intro hip
    rw [processLine_conn s line g h]
    unfold applyConnection
    rw [hip]

/-- Claim C3 witness: a connection line with token `10.0.0.1:85` stores the
address portion `10.0.0.1` in the valid set and as the connection's
mapping. -/
theorem C3_amended_wit :
    processLine initState wLineC3 = Except.ok { initState with
      all_ips := setAdd initState.all_ips "10.0.0.1".toList
      connections := dictSet initState.connections wConnC3.conn_hex_id "10.0.0.1".toList } :=
  (C3_amended initState wLineC3 wConnC3 rfl).2.2.2.1 "10.0.0.1".toList rfl

/-- Claim C4: processing a query-start line with a first-seen id and
non-empty trimmed text bumps the frequency of its text by one, adds its
word count, and grows the started-id set by one; feeding the same line
again leaves the state unchanged. -/
theorem C4_start_idempotent (s : ParserState) (line : List Char) (g : NewQueryMatch)
    (h1 : connSearch line = none) (h2 : nqSearch line = some g)
    (h3 : parseNatL g.query_id ∉ s.new_query_ids)
    (h4 : (stripL g.text_decoded).isEmpty = false) :
    processLine s line = Except.ok (applyNewQuery s g) ∧
    processLine (applyNewQuery s g) line = Except.ok (applyNewQuery s g) ∧
    dictGetD (applyNewQuery s g).request_freq (stripL g.text_decoded) 0 =
      dictGetD s.request_freq (stripL g.text_decoded) 0 + 1 ∧
    (applyNewQuery s g).total_words = s.total_words + countWords (stripL g.text_decoded) ∧
    (applyNewQuery s g).new_query_ids.length = s.new_query_ids.length + 1 := by
  obtain ⟨k1, k2, _⟩ := applyNewQuery_fresh s g h3
  obtain ⟨kf, kw⟩ := k2 h4
  refine ⟨?_, ?_, ?_, kw, ?_⟩
  · rw [processLine_noConn s line h1, processAfterConn_nq s line g h2]
  · rw [processLine_noConn _ line h1, processAfterConn_nq _ line g h2,
      applyNewQuery_mem _ g (by rw [k1]; exact mem_setAdd_self _ _)]
  · rw [kf, dictGetD_dictSet_self]
  · rw [k1, length_setAdd_notMem _ _ h3]

/-- Claim C4 witness: the properties at a concrete fresh query-start
line. -/
theorem C4_wit :
    processLine initState wLineC4 = Except.ok (applyNewQuery initState wNqC4) ∧
    processLine (applyNewQuery initState wNqC4) wLineC4 =
      Except.ok (applyNewQuery initState wNqC4) ∧
    dictGetD (applyNewQuery initState wNqC4).request_freq
      (stripL wNqC4.text_decoded) 0 =
      dictGetD initState.request_freq (stripL wNqC4.text_decoded) 0 + 1 ∧
    (applyNewQuery initState wNqC4).total_words =
      initState.total_words + countWords (stripL wNqC4.text_decoded) ∧
    (applyNewQuery initState wNqC4).new_query_ids.length =
      initState.new_query_ids.length + 1 :=
  C4_start_idempotent initState wLineC4 wNqC4 rfl rfl (by decide) rfl

/-- Claim C5: processing a query-end line with a first-seen id, valid float
fields and a well-formed (or absent) timestamp adds the two durations to
the running sums, raises the two maxima to at least the new values, grows
the finished-id set by one, and updates the first/last timestamp bounds
once; feeding the same line again leaves the state unchanged. -/
theorem C5_end_idempotent (s : ParserState) (line : List Char) (g : EndMatch)
    (tt tw : ℚ) (tso : Option ℕ)
    (h1 : connSearch line = none) (h2 : nqSearch line = none)
    (h3 : endSearch line = some g)
    (h4 : parseNatL g.query_id ∉ s.finished_query_ids)
    (h5 : pyFloat g.time_total_ms = some tt)
    (h6 : pyFloat g.time_working_ms = some tw)
    (h7 : extractInternalTimestamp line = Except.ok tso) :
    processLine s line = Except.ok (endUpd s (parseNatL g.query_id) tt tw tso) ∧
    processLine (endUpd s (parseNatL g.query_id) tt tw tso) line =
      Except.ok (endUpd s (parseNatL g.query_id) tt tw tso) ∧
    (endUpd s (parseNatL g.query_id) tt tw tso).total_time_with_waiting_ms =
      s.total_time_with_waiting_ms + tt ∧
    (endUpd s (parseNatL g.query_id) tt tw tso).total_time_working_ms =
      s.total_time_working_ms + tw ∧
    (endUpd s (parseNatL g.query_id) tt tw tso).max_handling_time_with_waiting_ms =
      max s.max_handling_time_with_waiting_ms tt ∧
    (endUpd s (parseNatL g.query_id) tt tw tso).max_handling_time_working_ms =
      max s.max_handling_time_working_ms tw ∧
    (endUpd s (parseNatL g.query_id) tt tw tso).finished_query_ids.length =
      s.finished_query_ids.length + 1 ∧
    (endUpd s (parseNatL g.query_id) tt tw tso).first_end_time =
      tso.elim s.first_end_time (updFirst s.first_end_time) ∧
    (endUpd s (parseNatL g.query_id) tt tw tso).last_end_time =
      tso.elim s.last_end_time (updLast s.last_end_time) := by
  refine ⟨?_, ?_, rfl, rfl, rfl, rfl, ?_, rfl, rfl⟩
  · rw [processLine_noConn s line h1, processAfterConn_noNq s line h2,
      processAfterNQ_end s line g h3,
      applyEndQuery_fresh s g line tt tw tso h4 h5 h6 h7]
  · rw [processLine_noConn _ line h1, processAfterConn_noNq _ line h2,
      processAfterNQ_end _ line g h3,
      applyEndQuery_mem _ g line (mem_setAdd_self _ _)]
  · show (setAdd s.finished_query_ids (parseNatL g.query_id)).length =
      s.finished_query_ids.length + 1
    exact length_setAdd_notMem _ _ h4

/-- Claim C5 witness: the properties at a concrete fresh query-end line
carrying the timestamp `[14.01.23 10:00:05]`. -/
theorem C5_wit :
    processLine initState wLineC5 =
      Except.ok (endUpd initState 375 wTtC5 wTwC5 (some wTsC5)) ∧
    processLine (endUpd initState 375 wTtC5 wTwC5 (some wTsC5)) wLineC5 =
      Except.ok (endUpd initState 375 wTtC5 wTwC5 (some wTsC5)) ∧
    (endUpd initState 375 wTtC5 wTwC5 (some wTsC5)).total_time_with_waiting_ms =
      initState.total_time_with_waiting_ms + wTtC5 ∧
    (endUpd initState 375 wTtC5 wTwC5 (some wTsC5)).total_time_working_ms =
      initState.total_time_working_ms + wTwC5 ∧
    (endUpd initState 375 wTtC5 wTwC5 (some wTsC5)).max_handling_time_with_waiting_ms =
      max initState.max_handling_time_with_waiting_ms wTtC5 ∧
    (endUpd initState 375 wTtC5 wTwC5 (some wTsC5)).max_handling_time_working_ms =
      max initState.max_handling_time_working_ms wTwC5 ∧
    (endUpd initState 375 wTtC5 wTwC5 (some wTsC5)).finished_query_ids.length =
      initState.finished_query_ids.length + 1 ∧
    (endUpd initState 375 wTtC5 wTwC5 (some wTsC5)).first_end_time =
      (some wTsC5).elim initState.first_end_time (updFirst initState.first_end_time) ∧
    (endUpd initState 375 wTtC5 wTwC5 (some wTsC5)).last_end_time =
      (some wTsC5).elim initState.last_end_time (updLast initState.last_end_time) :=
  C5_end_idempotent initState wLineC5 wEndC5 wTtC5 wTwC5 (some wTsC5)
    rfl rfl rfl (by decide) rfl rfl rfl

/-- Claim C6: `rps` is the finished count divided by the span in seconds
between last and first recorded timestamps; the finished count itself when
that span is at most 0; and 0 when no queries finished or no timestamps
were captured. -/
theorem C6_rps (s : ParserState) :
    (s.finished_query_ids.length = 0 ∨ s.first_end_time = none ∨
        s.last_end_time = none → rps s = 0) ∧
    (∀ f l, s.first_end_time = some f → s.last_end_time = some l →
      s.finished_query_ids.length ≠ 0 →
      ((l : ℚ) - (f : ℚ) ≤ 0 → rps s = (s.finished_query_ids.length : ℚ)) ∧
      (0 < (l : ℚ) - (f : ℚ) →
        rps s = (s.finished_query_ids.length : ℚ) / ((l : ℚ) - (f : ℚ)))) := by
  constructor
  · intro h
    rcases h with h | h | h <;> simp [rps, h]
  · intro f l hf hl hc
    constructor
    · intro hspan
      simp [rps, hf, hl, hc, hspan]
    · intro hspan
      simp [rps, hf, hl, hc, not_le.mpr hspan]

/-- Claim C6 witness: one finished query with a single captured timestamp
falls back to the count; five finished queries over a ten-second span give
one half; the initial state gives 0. -/
theorem C6_wit :
    rps wStateC6a = 1 ∧ rps wStateC6b = (1 : ℚ) / 2 ∧ rps initState = 0 := by
  refine ⟨?_, ?_, (C6_rps initState).1 (Or.inl rfl)⟩
  · have h := ((C6_rps wStateC6a).2 100 100 rfl rfl (by decide)).1 (by norm_num)
    rw [h]
    norm_num [wStateC6a, initState]
  · have h := ((C6_rps wStateC6b).2 100 110 rfl rfl (by decide)).2 (by norm_num)
    rw [h]
    norm_num [wStateC6b, initState]

/-- Claim C7: `average_words` is the word total divided by the count of
distinct started ids and 0 with no started queries; `average_times` is the
pair of duration sums divided by the finished count and (0, 0) with no
finished queries; both return the zero defaults on an empty input. -/
theorem C7_averages (s : ParserState) :
    (s.new_query_ids.length = 0 → average_words s = 0) ∧
    (s.new_query_ids.length ≠ 0 →
      average_words s = (s.total_words : ℚ) / (s.new_query_ids.length : ℚ)) ∧
    (s.finished_query_ids.length = 0 → average_times s = (0, 0)) ∧
    (s.finished_query_ids.length ≠ 0 →
      average_times s = (s.total_time_working_ms / (s.finished_query_ids.length : ℚ),
        s.total_time_with_waiting_ms / (s.finished_query_ids.length : ℚ))) ∧
    parseLines initState [] = Except.ok initState ∧
    average_words initState = 0 ∧ average_times initState = (0, 0) := by
  refine ⟨fun h => by simp [average_words, h], fun h => by simp [average_words, h],
    fun h => by simp [average_times, h], fun h => by simp [average_times, h],
    rfl, rfl, rfl⟩

/-- Claim C7 witness: the zero defaults at the initial state and the
quotient at a state with two started queries and five words. -/
theorem C7_wit :
    average_words initState = 0 ∧ average_times initState = (0, 0) ∧
    average_words wStateC7 = (5 : ℚ) / 2 := by
  refine ⟨(C7_averages initState).1 rfl, (C7_averages initState).2.2.1 rfl, ?_⟩
  have h := (C7_averages wStateC7).2.1 (by decide)
  rw [h]
  norm_num [wStateC7, initState]

/-- Claim C8, counterexample: a query-start-shaped line with zero
characters of request text does not match `NEW_QUERY` at all (the text
group is `.+`), so the query is not marked started and the state is
unchanged. -/
theorem C8_cex :
    nqSearch cexLineC8 = none ∧
    processLine initState cexLineC8 = Except.ok initState :=
  ⟨rfl, rfl⟩

/-- Claim C8 (amended): the query-start pattern requires at least one
character of request text; a line whose text is non-empty but trims to
empty still matches, the query is marked started and counted toward the
started aggregate, while the trimmed-empty text is excluded from the
frequency table and the word total. -/
theorem C8_amended (s : ParserState) (line : List Char) (g : NewQueryMatch)
    (h1 : connSearch line = none) (h2 : nqSearch line = some g)
    (h3 : parseNatL g.query_id ∉ s.new_query_ids)
    (h4 : (stripL g.text_decoded).isEmpty = true) :
    g.text_decoded.isEmpty = false ∧
    processLine s line = Except.ok (applyNewQuery s g) ∧
    (applyNewQuery s g).new_query_ids = setAdd s.new_query_ids (parseNatL g.query_id) ∧
    (applyNewQuery s g).request_freq = s.request_freq ∧
    (applyNewQuery s g).total_words = s.total_words := by
  obtain ⟨k1, _, k3⟩ := applyNewQuery_fresh s g h3
  obtain ⟨kf, kw⟩ := k3 h4
  refine ⟨nqSearch_text line g h2, ?_, k1, kf, kw⟩
  rw [processLine_noConn s line h1, processAfterConn_nq s line g h2]

/-- Claim C8 witness: the properties at a concrete query-start line whose
text is whitespace only. -/
theorem C8_amended_wit :
    wNqC8.text_decoded.isEmpty = false ∧
    processLine initState wLineC8 = Except.ok (applyNewQuery initState wNqC8) ∧
    (applyNewQuery initState wNqC8).new_query_ids =
      setAdd initState.new_query_ids (parseNatL wNqC8.query_id) ∧
    (applyNewQuery initState wNqC8).request_freq = initState.request_freq ∧
    (applyNewQuery initState wNqC8).total_words = initState.total_words :=
  C8_amended initState wLineC8 wNqC8 rfl rfl (by decide) rfl

/-- Claim C9: after any successfully processed prefix, the first and last
end-timestamps are both unset or both set; when both are set the first is
at most the last; and they are the minimum and maximum of all timestamps
captured from first-seen query-end lines so far. -/
theorem C9_timestamp_bounds (lines : List (List Char)) (s1 : ParserState)
    (h : parseLines initState lines = Except.ok s1) :
    ((s1.first_end_time = none) ↔ (s1.last_end_time = none)) ∧
    (∀ f l, s1.first_end_time = some f → s1.last_end_time = some l → f ≤ l) ∧
    (∀ f, s1.first_end_time = some f →
      f ∈ capturedTs initState lines ∧ ∀ t ∈ capturedTs initState lines, f ≤ t) ∧
    (∀ l, s1.last_end_time = some l →
      l ∈ capturedTs initState lines ∧ ∀ t ∈ capturedTs initState lines, t ≤ l) := by
  obtain ⟨hf, hl⟩ := parseLines_first_last lines initState s1 h
  have hfi : initState.first_end_time = none := rfl
  have hli : initState.last_end_time = none := rfl
  rw [hfi] at hf
  rw [hli] at hl
  refine ⟨?_, ?_, ?_, ?_⟩
  · rw [hf, hl, foldFirstO_eq_none, foldLastO_eq_none]
  · intro f l hsf hsl
    obtain ⟨_, _, hboundf⟩ := foldFirstO_spec _ none f (hf.symm.trans hsf)
    obtain ⟨hmeml, _, _⟩ := foldLastO_spec _ none l (hl.symm.trans hsl)
    rcases hmeml with h2 | h2
    · exact absurd h2 (by simp)
    · exact hboundf l h2
  · intro f hsf
    obtain ⟨hmemf, _, hboundf⟩ := foldFirstO_spec _ none f (hf.symm.trans hsf)
    rcases hmemf with h2 | h2
    · exact absurd h2 (by simp)
    · exact ⟨h2, hboundf⟩
  · intro l hsl
    obtain ⟨hmeml, _, hboundl⟩ := foldLastO_spec _ none l (hl.symm.trans hsl)
    rcases hmeml with h2 | h2
    · exact absurd h2 (by simp)
    · exact ⟨h2, hboundl⟩

/-- Claim C9 witness: after one end line carrying `[14.01.23 10:00:05]`,
both bounds equal that timestamp and it is among the captured
timestamps. -/
theorem C9_wit :
    wStateC9.first_end_time = some wTsC9 ∧ wStateC9.last_end_time = some wTsC9 ∧
    wTsC9 ∈ capturedTs initState wLinesC9 :=
  ⟨rfl, rfl, ((C9_timestamp_bounds wLinesC9 wStateC9 rfl).2.2.1 wTsC9 rfl).1⟩

/-- Claim C10, counterexample: three query-end lines whose working and
total times are all the literal `0.1` ms drive the parser to three
finished queries, each millisecond field denoting the exact decimal value
1/10.  The program stores and accumulates these as IEEE binary64 floats:
the stored field value is `fl01` (the correctly rounded `float` of `0.1`),
the two `+=` steps produce `fl02` and then `fl03` (whose exact half-ulp
tie rounds up to the even mantissa, `0.30000000000000004`), the division
by the finished count produces `flAvg` (`0.10000000000000002`), and the
running maximum stays `fl01` (the comparison update involves no
rounding).  Each rounding step is pinned uniquely by `rounds64`
(`rounds64_unique`), and the computed average `flAvg` strictly exceeds the
computed maximum `fl01`, so on the program's float arithmetic maxTimes
does not dominate averageTimes. -/
theorem C10_cex :
    parseLines initState cexLinesC10 = Except.ok cexStateC10 ∧
    cexStateC10.finished_query_ids.length = 3 ∧
    pyFloat "0.1".toList = some (1 / 10) ∧
    rounds64 (1 / 10) fl01 ∧
    rounds64 (fl01 + fl01) fl02 ∧
    rounds64 (fl02 + fl01) fl03 ∧
    rounds64 (fl03 / 3) flAvg ∧
    maxFoldQ [fl01, fl01, fl01] = fl01 ∧
    flAvg > fl01 :=
  ⟨rfl, by decide, pyFloat_zeroPointOne, rounds64_fl01, rounds64_fl02, rounds64_fl03,
    rounds64_flAvg, by norm_num [maxFoldQ, fl01], by rw [flAvg, fl01]; norm_num⟩

/-- Claim C10 (amended): after any successfully processed input, the
accumulated sums and maxima are non-negative, and with the millisecond
arithmetic taken at its exact rational values each component of the maxima
pair dominates the matching component of the averages pair; under the
source's IEEE binary64 arithmetic the computed average can instead exceed
the computed maximum by one unit in the last place (see the
counterexample), so the claimed inequality holds only up to rounding. -/
theorem C10_max_ge_avg (lines : List (List Char)) (s1 : ParserState)
    (h : parseLines initState lines = Except.ok s1) :
    (s1.finished_query_ids.length ≠ 0 →
      (average_times s1).1 ≤ (max_times s1).1 ∧
      (average_times s1).2 ≤ (max_times s1).2) ∧
    0 ≤ s1.total_time_working_ms ∧ 0 ≤ s1.total_time_with_waiting_ms ∧
    0 ≤ s1.max_handling_time_working_ms ∧
    0 ≤ s1.max_handling_time_with_waiting_ms := by
  obtain ⟨i1, i2, i3, i4, i5, i6⟩ := parseLines_invq lines initState s1 h initState_invq
  refine ⟨?_, i1, i2, i3, i4⟩
  intro hc
  have hc0 : (0 : ℚ) < (s1.finished_query_ids.length : ℚ) := by
    have hpos : 0 < s1.finished_query_ids.length := Nat.pos_of_ne_zero hc
    exact_mod_cast hpos
  constructor
  · show (average_times s1).1 ≤ (max_times s1).1
    simp [average_times, max_times, hc]
    rw [div_le_iff₀ hc0]
    calc s1.total_time_working_ms ≤
        (s1.finished_query_ids.length : ℚ) * s1.max_handling_time_working_ms := i5
    _ = s1.max_handling_time_working_ms * (s1.finished_query_ids.length : ℚ) := by ring
  · show (average_times s1).2 ≤ (max_times s1).2
    simp [average_times, max_times, hc]
    rw [div_le_iff₀ hc0]
    calc s1.total_time_with_waiting_ms ≤
        (s1.finished_query_ids.length : ℚ) * s1.max_handling_time_with_waiting_ms := i6
    _ = s1.max_handling_time_with_waiting_ms * (s1.finished_query_ids.length : ℚ) := by
        ring

/-- Claim C10 witness: the bounds after parsing one query-end line. -/
theorem C10_wit :
    (average_times wStateC10).1 ≤ (max_times wStateC10).1 ∧
    (average_times wStateC10).2 ≤ (max_times wStateC10).2 ∧
    0 ≤ wStateC10.total_time_working_ms := by
  have H := C10_max_ge_avg wLinesC10 wStateC10 rfl
  have hc : wStateC10.finished_query_ids.length ≠ 0 := by decide
  exact ⟨(H.1 hc).1, (H.1 hc).2, H.2.1⟩

end LogsModel
